import Mathlib

/-!
Verification of the `riscv` repository: a shallow embedding in Lean 4 of the
32-bit bit-vector integer type (`data.py`, class `RiscInteger`), the machine
state (`machine.py`, class `RiscMachine`), the instruction-format
encode/decode logic (`instruction.py`), the per-opcode instructions
(`implementation/arithmetic.py`, `implementation/branch.py`,
`implementation/memory.py`), the assembler (`assembler.py`) and the
simulator (`simulator.py`), together with theorems settling the spec claims.

Conventions of the embedding:
* Python lists of booleans become `List Bool`, least-significant bit first.
* Python `int` becomes `Int` (Python `>>` on ints is floor division, which for
  a positive divisor agrees with Lean's `Int` division `/`; Python `%` by a
  positive number agrees with Lean's `Int.emod`).
* Methods that can raise become `Except String`-valued functions; the message
  carried is the message of the Python exception.
* Python dicts become functions into `Option`; Python sets become `Finset`.
-/

namespace Riscv

/-- Numeric value of a bit list, least-significant bit first
(`sum of 2^i` over set bits, as in `RiscInteger.to_int`'s loop). -/
def listToNat : List Bool → Nat
  | [] => 0
  | b :: bs => (cond b 1 0) + 2 * listToNat bs

/-- The low `n` bits of a natural number, least-significant first.  This is
the loop that `RiscInteger.__init__` runs for an `(int, length)` fragment:
repeatedly record `value & 1 > 0` and shift right. -/
def natBits : Nat → Nat → List Bool
  | _, 0 => []
  | v, n + 1 => (v % 2 == 1) :: natBits (v / 2) n

/-- The low `n` bits of an integer, least-significant first, as computed by
the loop in `RiscInteger.__init__(value: int, signed: bool)`: Python's
`value & 1 > 0` is `value % 2 == 1` (`%` by two of any Python int is 0 or 1)
and `value >> 1` is floor division by two, which is `Int` division by the
positive number 2. -/
def intBits : Int → Nat → List Bool
  | _, 0 => []
  | v, n + 1 => (v % 2 == 1) :: intBits (v / 2) n

/-- `RiscInteger` from `data.py`: a wrapper around a list of bits,
least-significant first.  The class invariant (exactly 32 bits) is stated
separately as `RiscInteger.wf`. -/
structure RiscInteger where
  bits : List Bool
deriving DecidableEq, Repr

namespace RiscInteger

/-- The "always exactly 32 bits" invariant of `RiscInteger`. -/
def wf (x : RiscInteger) : Prop := x.bits.length = 32

instance (x : RiscInteger) : Decidable x.wf := by unfold wf; infer_instance

/-- `RiscInteger.__init__(value, signed=True)` after its range check has
passed: the 32-iteration bit-extraction loop. -/
def ofInt (v : Int) : RiscInteger := ⟨intBits v 32⟩

/-- `RiscInteger.__init__(value, signed)` including the range check: raises
`RiscIntegerException` when the value is out of range for the chosen
signedness. -/
def mk? (v : Int) (signed : Bool := true) : Except String RiscInteger :=
  if signed && (v < -(2 ^ 31) || v ≥ 2 ^ 31) then
    Except.error "Value out of range for a signed RISC integer"
  else if !signed && (v < 0 || v ≥ 2 ^ 32) then
    Except.error "Value out of range for an unsigned RISC integer"
  else
    Except.ok (ofInt v)

/-- `RiscInteger.sign_bit`: bit 31. -/
def sign_bit (x : RiscInteger) : Bool := x.bits.getD 31 false

/-- The ripple-carry loop of `RiscInteger.__add__`, peeling both bit lists
from the least-significant end: the result bit is
`a[i] XOR b[i] XOR carry` and the next carry is
`(a[i] AND b[i]) OR (carry AND (a[i] XOR b[i]))`.  On two 32-bit lists this
performs exactly the source's 32 iterations. -/
def rippleAdd : List Bool → List Bool → Bool → List Bool
  | a :: as, b :: bs, c =>
      (xor (xor a b) c) :: rippleAdd as bs ((a && b) || (c && xor a b))
  | _, _, _ => []

/-- `RiscInteger.__add__`. -/
def add (x y : RiscInteger) : RiscInteger := ⟨rippleAdd x.bits y.bits false⟩

instance : Add RiscInteger := ⟨add⟩

/-- `RiscInteger.__neg__`: complement every bit, then add one. -/
def neg (x : RiscInteger) : RiscInteger :=
  add ⟨x.bits.map (fun b => !b)⟩ (ofInt 1)

instance : Neg RiscInteger := ⟨neg⟩

/-- `RiscInteger.__sub__`: `self + (-other)`. -/
def sub (x y : RiscInteger) : RiscInteger := add x (neg y)

instance : Sub RiscInteger := ⟨sub⟩

/-- The scan of `RiscInteger.compare_unsigned`, expressed on lists ordered
most-significant bit first (the source iterates `reversed(range(32))`):
at the first differing bit, `a < b` holds exactly when `a`'s bit is `False`
and `b`'s is `True`; if no bit differs the result is `False`. -/
def cmpMsb : List Bool → List Bool → Bool
  | a :: as, b :: bs =>
      if !a && b then true
      else if a && !b then false
      else cmpMsb as bs
  | _, _ => false

/-- `RiscInteger.compare_unsigned`. -/
def compare_unsigned (x y : RiscInteger) : Bool :=
  cmpMsb x.bits.reverse y.bits.reverse

/-- `RiscInteger.__lt__`: unsigned comparison XOR both sign bits
(left-associated, as Python evaluates `a ^ b ^ c`). -/
def lt (x y : RiscInteger) : Bool :=
  ((x.compare_unsigned y).xor x.sign_bit).xor y.sign_bit

/-- `RiscInteger.__ge__`: `not (self < other)`. -/
def ge (x y : RiscInteger) : Bool := !(lt x y)

/-- `RiscInteger.to_int`: the value of the low 31 bits, plus `-2^31`
(signed) or `+2^31` (unsigned) when the sign bit is set. -/
def to_int (x : RiscInteger) (signed : Bool := true) : Int :=
  (listToNat (x.bits.take 31) : Int) +
    (if x.sign_bit then (if signed then -(2 ^ 31) else 2 ^ 31) else 0)

/-- `RiscInteger.__rshift__` (logical right shift, zero fill): clamp the
shift amount at 32, drop that many low bits and pad with zeros above. -/
def rshift (x : RiscInteger) (positions : Nat) : RiscInteger :=
  let p := if positions > 32 then 32 else positions
  ⟨x.bits.drop p ++ List.replicate p false⟩

/-- `RiscInteger.__lshift__` (logical left shift, zero fill): a shift by 0
returns `self` unchanged (the source special-cases it because the slice
`bits[:-0]` would be empty); otherwise clamp at 32, pad with zeros below and
keep all but the last `p` bits (`bits[:-p]`). -/
def lshift (x : RiscInteger) (positions : Nat) : RiscInteger :=
  if positions = 0 then x
  else
    let p := if positions > 32 then 32 else positions
    ⟨List.replicate p false ++ x.bits.take (x.bits.length - p)⟩

/-- `RiscInteger.__or__`: element-wise, over indices `0..31` as in the
source's `range(32)` comprehension. -/
def orRisc (x y : RiscInteger) : RiscInteger :=
  ⟨(List.range 32).map (fun i => x.bits.getD i false || y.bits.getD i false)⟩

/-- `RiscInteger.__and__`: element-wise, over indices `0..31`. -/
def andRisc (x y : RiscInteger) : RiscInteger :=
  ⟨(List.range 32).map (fun i => x.bits.getD i false && y.bits.getD i false)⟩

end RiscInteger

/-! ### The machine (`machine.py`) -/

/-- `RiscMachine` from `machine.py`: 32 general registers (a dict with keys
`0..31`, here a list of length 32), a program counter held as a Python int,
a sparse memory dict keyed by `address.to_int()`, the set of protected
register indices, and the set of protected registers actually written. -/
structure RiscMachine where
  registers : List RiscInteger
  program_counter : Int
  memory : Int → Option RiscInteger
  protected_registers : Finset Nat
  protected_registers_written : Finset Nat

namespace RiscMachine

/-- `RiscMachine()` with the defaults: zeroed registers, `pc = 0`, empty
memory, protected set `{0}`, nothing written yet. -/
def init : RiscMachine where
  registers := List.replicate 32 (RiscInteger.ofInt 0)
  program_counter := 0
  memory := fun _ => none
  protected_registers := {0}
  protected_registers_written := ∅

/-- `RiscMachine.write_register`: a write to a protected register only
records the index in `protected_registers_written` and discards the value;
an index outside `[0, 31]` raises (indices are naturals here, so only the
upper bound is checked); otherwise the register is overwritten. -/
def write_register (m : RiscMachine) (index : Nat) (value : RiscInteger) :
    Except String RiscMachine :=
  if index ∈ m.protected_registers then
    Except.ok { m with
      protected_registers_written := m.protected_registers_written ∪ {index} }
  else if index > 31 then
    Except.error "Write to unknown register"
  else
    Except.ok { m with registers := m.registers.set index value }

/-- `RiscMachine.read_register`. -/
def read_register (m : RiscMachine) (index : Nat) : Except String RiscInteger :=
  if index > 31 then Except.error "Read from unknown register"
  else Except.ok (m.registers.getD index ⟨[]⟩)

/-- `RiscMachine.write_memory`: raises unless the low two bits of the
address (`address.bits[0:2]`) are both clear; stores under the key
`address.to_int()`. -/
def write_memory (m : RiscMachine) (address value : RiscInteger) :
    Except String RiscMachine :=
  if address.bits.take 2 ≠ [false, false] then
    Except.error "Unaligned memory write"
  else
    Except.ok { m with
      memory := fun k => if k = address.to_int true then some value else m.memory k }

/-- `RiscMachine.read_memory`: same alignment check; a lookup of an absent
key raises (Python's `KeyError` on the memory dict). -/
def read_memory (m : RiscMachine) (address : RiscInteger) :
    Except String RiscInteger :=
  if address.bits.take 2 ≠ [false, false] then
    Except.error "Unaligned memory read"
  else
    match m.memory (address.to_int true) with
    | some v => Except.ok v
    | none => Except.error "KeyError"

end RiscMachine

/-! ### The instructions (`implementation/arithmetic.py`,
`implementation/branch.py`, `implementation/memory.py`) -/

/-- The seven registered instructions, with the operand fields each class
stores: `AddRiscInstruction (rd, rs1, rs2)`,
`AddImmediateRiscInstruction (rd, rs1, n)`, the three
`BranchRiscInstruction`s `(rs1, rs2, offset)`,
`LoadWordRiscInstruction (rd, n, rs1)` and
`StoreWordRiscInstruction (rs2, n, rs1)`. -/
inductive Instr
  | add (rd rs1 rs2 : Nat)
  | addi (rd rs1 : Nat) (n : RiscInteger)
  | beq (rs1 rs2 : Nat) (offset : RiscInteger)
  | bge (rs1 rs2 : Nat) (offset : RiscInteger)
  | blt (rs1 rs2 : Nat) (offset : RiscInteger)
  | lw (rd rs1 : Nat) (n : RiscInteger)
  | sw (rs2 rs1 : Nat) (n : RiscInteger)
deriving DecidableEq, Repr

/-- The `run` method of each instruction class, with Python's left-to-right
evaluation order of the reads; `pc += 4` happens after a successful write;
a branch adds `offset.to_int()` to the program counter when its condition
holds and 4 otherwise. -/
def Instr.run (i : Instr) (m : RiscMachine) : Except String RiscMachine :=
  match i with
  | .add rd rs1 rs2 => do
      let v1 ← m.read_register rs1
      let v2 ← m.read_register rs2
      let m2 ← m.write_register rd (v1.add v2)
      Except.ok { m2 with program_counter := m2.program_counter + 4 }
  | .addi rd rs1 n => do
      let v1 ← m.read_register rs1
      let m2 ← m.write_register rd (v1.add n)
      Except.ok { m2 with program_counter := m2.program_counter + 4 }
  | .beq rs1 rs2 offset => do
      let v1 ← m.read_register rs1
      let v2 ← m.read_register rs2
      if v1 = v2 then
        Except.ok { m with program_counter := m.program_counter + offset.to_int true }
      else
        Except.ok { m with program_counter := m.program_counter + 4 }
  | .bge rs1 rs2 offset => do
      let v1 ← m.read_register rs1
      let v2 ← m.read_register rs2
      if RiscInteger.ge v1 v2 = true then
        Except.ok { m with program_counter := m.program_counter + offset.to_int true }
      else
        Except.ok { m with program_counter := m.program_counter + 4 }
  | .blt rs1 rs2 offset => do
      let v1 ← m.read_register rs1
      let v2 ← m.read_register rs2
      if RiscInteger.lt v1 v2 = true then
        Except.ok { m with program_counter := m.program_counter + offset.to_int true }
      else
        Except.ok { m with program_counter := m.program_counter + 4 }
  | .lw rd rs1 n => do
      let base ← m.read_register rs1
      let v ← m.read_memory (base.add n)
      let m2 ← m.write_register rd v
      Except.ok { m2 with program_counter := m2.program_counter + 4 }
  | .sw rs2 rs1 n => do
      let base ← m.read_register rs1
      let v ← m.read_register rs2
      let m2 ← m.write_memory (base.add n) v
      Except.ok { m2 with program_counter := m2.program_counter + 4 }

/-! ### The simulator (`simulator.py`) -/

/-- Python list indexing `instructions[i]`, including negative-index
wrapping; an index out of range raises `IndexError`. -/
def pyGet (l : List Instr) (i : Int) : Except String Instr :=
  let j := if i < 0 then i + l.length else i
  if 0 ≤ j then
    match l[j.toNat]? with
    | some x => Except.ok x
    | none => Except.error "IndexError: list index out of range"
  else Except.error "IndexError: list index out of range"

/-- `RiscSimulator.simulate` with explicit fuel: while
`pc < len(instructions) * 4`, fetch `instructions[pc >> 2]` (`pc >> 2` is
floor division by 4) and run it; when the condition fails the machine is
returned.  Exhausted fuel is an error, so an `ok` result is a genuine
termination of the source's `while` loop. -/
def simulate : Nat → List Instr → RiscMachine → Except String RiscMachine
  | 0, _, _ => Except.error "simulation fuel exhausted"
  | fuel + 1, instrs, m =>
    if m.program_counter < (instrs.length : Int) * 4 then do
      let ins ← pyGet instrs (m.program_counter / 4)
      let m2 ← ins.run m
      simulate fuel instrs m2
    else Except.ok m

/-! ### The assembler (`assembler.py`)

The operand grammars are Python regexes applied with `re.match` (anchored at
the start only, trailing text ignored).  They are embedded as hand-rolled
prefix parsers; for these particular regexes greedy matching without
backtracking is equivalent, because every token class is disjoint from the
character that must follow it. -/

/-- The character class `[a-z0-9]` of the operand grammars. -/
def isTokenChar (c : Char) : Bool := c.isLower || c.isDigit

/-- `[a-zA-Z_]`: the first character of a label identifier. -/
def isIdentStart (c : Char) : Bool := c.isAlpha || c = '_'

/-- `[a-zA-Z_0-9]`: the later characters of a label identifier. -/
def isIdentChar (c : Char) : Bool := c.isAlpha || c.isDigit || c = '_'

/-- Group 1 of the comment-stripping regex `([^;#/]*)(([;#]|//).*)?` in
`RiscAssembler.parse`: the longest prefix with none of `;`, `#`, `/`. -/
def stripComment (cs : List Char) : List Char :=
  cs.takeWhile (fun c => !(c = ';' || c = '#' || c = '/'))

/-- Python's `str.strip()`. -/
def trimChars (cs : List Char) : List Char :=
  ((cs.dropWhile Char.isWhitespace).reverse.dropWhile Char.isWhitespace).reverse

/-- The label regex `^[a-zA-Z_][a-zA-Z_0-9]*:$`. -/
def isLabelLine (cs : List Char) : Bool :=
  match cs with
  | [] => false
  | c :: rest =>
      isIdentStart c && !rest.isEmpty &&
        (rest.take (rest.length - 1)).all isIdentChar &&
        rest.getLast? == some ':'

/-- State of the first pass of `RiscAssembler.parse`: the retained
instruction lines, the label table (most recent binding first, as a dict
overwrite would), and the running byte offset. -/
structure Pass1State where
  lines : List (List Char)
  locations : List (List Char × RiscInteger)
  offset : Nat
deriving Repr

/-- One iteration of the first pass: strip the comment and whitespace, skip
a blank line, record a label at the current offset (offset unchanged), or
retain the line and advance the offset by 4. -/
def pass1Step (st : Pass1State) (rawLine : List Char) : Pass1State :=
  let line := trimChars (stripComment rawLine)
  if line.isEmpty then st
  else if isLabelLine line then
    { st with locations := (line.dropLast, RiscInteger.ofInt st.offset) :: st.locations }
  else
    { st with lines := st.lines ++ [line], offset := st.offset + 4 }

/-- Python's `line.split(' ', 1)` when it yields two parts; `none` when the
line has no space (unpacking then raises `ValueError`). -/
def splitFirstSpace : List Char → Option (List Char × List Char)
  | [] => none
  | c :: rest =>
      if c = ' ' then some ([], rest)
      else
        match splitFirstSpace rest with
        | some (u, v) => some (c :: u, v)
        | none => none

/-- Value of a string of decimal digits. -/
def digitsVal (ds : List Char) : Nat :=
  ds.foldl (fun acc c => acc * 10 + (c.toNat - '0'.toNat)) 0

/-- Python `int(s)` restricted to the token shapes the operand grammars can
produce: an optional `-` followed by decimal digits; anything else raises
`ValueError` (`none` here). -/
def parsePyInt? : List Char → Option Int
  | [] => none
  | '-' :: rest =>
      if !rest.isEmpty && rest.all Char.isDigit then
        some (-(digitsVal rest : Int))
      else none
  | cs => if cs.all Char.isDigit then some (digitsVal cs) else none

/-- `RiscAssembler.parse_register`: any token starting with `x` whose tail
parses as an integer is accepted — there is no upper bound check.  Tokens
reaching it match `[a-z0-9]+`, so the tail is a plain digit string. -/
def parse_register (name : List Char) : Except String Nat :=
  match name with
  | 'x' :: rest =>
      if !rest.isEmpty && rest.all Char.isDigit then Except.ok (digitsVal rest)
      else Except.error ("Unknown register name: \"" ++ String.mk name ++ "\"")
  | _ => Except.error "Register names should start with \"x\""

/-- `RiscAssembler.parse_immediate`: `int(...)` failure (a `ValueError`) is
re-raised as an `AssemblerException`; a successful parse goes through the
range-checked `RiscInteger` constructor, whose `RiscIntegerException` (out
of signed range) propagates uncaught. -/
def parse_immediate (s : List Char) : Except String RiscInteger :=
  match parsePyInt? s with
  | none => Except.error ("Could not parse immediate: \"" ++ String.mk s ++ "\"")
  | some v => RiscInteger.mk? v true

/-- The third-operand resolution in `BranchRiscInstruction.__init__`: try
`parse_immediate`, and only on its `AssemblerException` (the token is not an
integer literal) fall back to the label table, computed as
`locations[label] - location`; a missing label raises an error naming it. -/
def branchResolve (locations : List (List Char × RiscInteger))
    (location : RiscInteger) (tok : List Char) : Except String RiscInteger :=
  match parsePyInt? tok with
  | some v => RiscInteger.mk? v true
  | none =>
      match locations.lookup tok with
      | some t => Except.ok (t.sub location)
      | none => Except.error ("Unable to resolve location \"" ++ String.mk tok ++ "\"")

/-- A literal `,` followed by `\s*`. -/
def expectCommaWs (cs : List Char) : Option (List Char) :=
  match cs with
  | ',' :: rest => some (rest.dropWhile Char.isWhitespace)
  | _ => none

/-- Longest prefix of `[a-z0-9]` characters plus the rest. -/
def takeTokenCls (cs : List Char) : List Char × List Char :=
  (cs.takeWhile isTokenChar, cs.dropWhile isTokenChar)

/-- `-?[0-9]+` as a prefix. -/
def takeNumber (cs : List Char) : Option (List Char) :=
  match cs with
  | '-' :: rest =>
      let ds := rest.takeWhile Char.isDigit
      if ds.isEmpty then none else some ('-' :: ds)
  | _ =>
      let ds := cs.takeWhile Char.isDigit
      if ds.isEmpty then none else some ds

/-- `([a-zA-Z_][a-zA-Z_0-9]*|-?[0-9]+)` as a prefix: the identifier
alternative is tried first, as the regex engine does. -/
def takeBranchTarget (cs : List Char) : Option (List Char) :=
  match cs with
  | c :: rest =>
      if isIdentStart c then some (c :: rest.takeWhile isIdentChar)
      else takeNumber (c :: rest)
  | [] => none

/-- `([a-z0-9]+),\s*([a-z0-9]+),\s*([a-z0-9]+)` — the R-type grammar. -/
def matchRFormat (cs : List Char) : Option (List Char × List Char × List Char) :=
  let (t1, r1) := takeTokenCls cs
  if t1.isEmpty then none else
  match expectCommaWs r1 with
  | none => none
  | some r2 =>
      let (t2, r3) := takeTokenCls r2
      if t2.isEmpty then none else
      match expectCommaWs r3 with
      | none => none
      | some r4 =>
          let (t3, _) := takeTokenCls r4
          if t3.isEmpty then none else some (t1, t2, t3)

/-- `([a-z0-9]+),\s*([a-z0-9]+),\s*(-?[0-9]+)` — the I-type grammar. -/
def matchIFormat (cs : List Char) : Option (List Char × List Char × List Char) :=
  let (t1, r1) := takeTokenCls cs
  if t1.isEmpty then none else
  match expectCommaWs r1 with
  | none => none
  | some r2 =>
      let (t2, r3) := takeTokenCls r2
      if t2.isEmpty then none else
      match expectCommaWs r3 with
      | none => none
      | some r4 =>
          match takeNumber r4 with
          | none => none
          | some t3 => some (t1, t2, t3)

/-- `([a-z0-9]+),\s*([a-z0-9]+),\s*([a-zA-Z_][a-zA-Z_0-9]*|-?[0-9]+)` — the
branch grammar. -/
def matchSBFormat (cs : List Char) : Option (List Char × List Char × List Char) :=
  let (t1, r1) := takeTokenCls cs
  if t1.isEmpty then none else
  match expectCommaWs r1 with
  | none => none
  | some r2 =>
      let (t2, r3) := takeTokenCls r2
      if t2.isEmpty then none else
      match expectCommaWs r3 with
      | none => none
      | some r4 =>
          match takeBranchTarget r4 with
          | none => none
          | some t3 => some (t1, t2, t3)

/-- `([a-z0-9]+),\s*(-?[0-9]+)\(([a-z0-9]+)\)` — the `lw`/`sw` grammar. -/
def matchSFormat (cs : List Char) : Option (List Char × List Char × List Char) :=
  let (t1, r1) := takeTokenCls cs
  if t1.isEmpty then none else
  match expectCommaWs r1 with
  | none => none
  | some r2 =>
      match takeNumber r2 with
      | none => none
      | some t2 =>
          match r2.drop t2.length with
          | '(' :: r4 =>
              let (t3, r5) := takeTokenCls r4
              if t3.isEmpty then none else
              match r5 with
              | ')' :: _ => some (t1, t2, t3)
              | _ => none
          | _ => none

/-- `RiscAssembler.parse_line` on a non-blank line (the caller has already
dropped blank lines): split off the mnemonic at the first space, lower-case
it, look it up in the instruction registry, match the operand text (after
`strip()`) against that instruction's grammar, and run the instruction's
operand parser. -/
def parse_line (line : List Char) (locations : List (List Char × RiscInteger))
    (location : RiscInteger) : Except String Instr :=
  match splitFirstSpace line with
  | none => Except.error ("Could not parse line \"" ++ String.mk line ++ "\"")
  | some (instrTok, args) =>
      let mnemonic := instrTok.map Char.toLower
      let args := trimChars args
      if mnemonic = "add".data then
        match matchRFormat args with
        | none => Except.error "Could not parse instruction"
        | some (p0, p1, p2) => do
            let rd ← parse_register p0
            let rs1 ← parse_register p1
            let rs2 ← parse_register p2
            Except.ok (Instr.add rd rs1 rs2)
      else if mnemonic = "addi".data then
        match matchIFormat args with
        | none => Except.error "Could not parse instruction"
        | some (p0, p1, p2) => do
            let rd ← parse_register p0
            let rs1 ← parse_register p1
            let n ← parse_immediate p2
            Except.ok (Instr.addi rd rs1 n)
      else if mnemonic = "beq".data then
        match matchSBFormat args with
        | none => Except.error "Could not parse instruction"
        | some (p0, p1, p2) => do
            let rs1 ← parse_register p0
            let rs2 ← parse_register p1
            let offset ← branchResolve locations location p2
            Except.ok (Instr.beq rs1 rs2 offset)
      else if mnemonic = "bge".data then
        match matchSBFormat args with
        | none => Except.error "Could not parse instruction"
        | some (p0, p1, p2) => do
            let rs1 ← parse_register p0
            let rs2 ← parse_register p1
            let offset ← branchResolve locations location p2
            Except.ok (Instr.bge rs1 rs2 offset)
      else if mnemonic = "blt".data then
        match matchSBFormat args with
        | none => Except.error "Could not parse instruction"
        | some (p0, p1, p2) => do
            let rs1 ← parse_register p0
            let rs2 ← parse_register p1
            let offset ← branchResolve locations location p2
            Except.ok (Instr.blt rs1 rs2 offset)
      else if mnemonic = "lw".data then
        match matchSFormat args with
        | none => Except.error "Could not parse instruction"
        | some (p0, p1, p2) => do
            let rd ← parse_register p0
            let n ← parse_immediate p1
            let rs1 ← parse_register p2
            Except.ok (Instr.lw rd rs1 n)
      else if mnemonic = "sw".data then
        match matchSFormat args with
        | none => Except.error "Could not parse instruction"
        | some (p0, p1, p2) => do
            let rs2 ← parse_register p0
            let n ← parse_immediate p1
            let rs1 ← parse_register p2
            Except.ok (Instr.sw rs2 rs1 n)
      else Except.error ("Unknown instruction \"" ++ String.mk mnemonic ++ "\"")

/-- The second pass of `RiscAssembler.parse`: the retained line at sequence
index `i` is parsed at location `RiscInteger(i * 4)`. -/
def parseAll : List (List Char) → List (List Char × RiscInteger) → Nat →
    Except String (List Instr)
  | [], _, _ => Except.ok []
  | l :: ls, locs, i => do
      let ins ← parse_line l locs (RiscInteger.ofInt (i * 4))
      let rest ← parseAll ls locs (i + 1)
      Except.ok (ins :: rest)

/-- `RiscAssembler.parse`: the two-pass assembly of a list of source
lines. -/
def parse (lines : List String) : Except String (List Instr) :=
  let st := lines.foldl (fun st line => pass1Step st line.data) ⟨[], [], 0⟩
  parseAll st.lines st.locations 0

/-- The spec's "(a+b) mod 2^32, interpreted as signed two's complement":
reduce into `[0, 2^32)` and subtract `2^32` when the result lands in the
upper half. -/
def wrapSigned (x : Int) : Int :=
  if x % 2 ^ 32 < 2 ^ 31 then x % 2 ^ 32 else x % 2 ^ 32 - 2 ^ 32


/-- Carry sequence of ripple-carry addition after `i` steps, starting from
carry `c`: the running value of the `carry` variable of
`RiscInteger.__add__`'s loop. -/
def carryAt : List Bool → List Bool → Bool → Nat → Bool
  | _, _, c, 0 => c
  | x :: xs, y :: ys, c, i + 1 => carryAt xs ys ((x && y) || (c && xor x y)) i
  | _, _, c, _ + 1 => c

/-- The carry recurrence exactly as the claim states it: `carry_0 = false`
and `carry_(i+1) = (a[i] AND b[i]) OR (carry_i AND (a[i] XOR b[i]))`. -/
def carrySpec (a b : RiscInteger) : Nat → Bool
  | 0 => false
  | i + 1 =>
      (a.bits.getD i false && b.bits.getD i false) ||
        (carrySpec a b i && xor (a.bits.getD i false) (b.bits.getD i false))


/-- Numeric value of a bit list ordered most-significant bit first. -/
def listToNatMsb : List Bool → Nat
  | [] => 0
  | b :: bs => (cond b 1 0) * 2 ^ bs.length + listToNatMsb bs


/-! ### Instruction formats (`instruction.py`)

The format classes decode with `RiscInteger` slicing (`code[7:12]` and the
like).  The slicing method itself is not among the source files (only its
uses are); per the spec it extracts a contiguous bit range "reinterpreted as
a field value", which is how `decode` compares slices against opcode/funct
constants and stores them into register fields. -/

/-- Modelled from the spec: the `RiscInteger` slicing primitive
`code[lo:hi]` read back as an unsigned field value — "extract a contiguous
bit range ... reinterpreted as a field value".  A missing upper bound
(`code[25:]`) is `hi = 32` on a well-formed word. -/
def sliceVal (x : RiscInteger) (lo hi : Nat) : Nat :=
  listToNat ((x.bits.drop lo).take (hi - lo))

/-- Python list repetition `l * n`. -/
def pyRep (l : List Bool) (n : Nat) : List Bool :=
  (List.replicate n l).flatten

/-- Fields of `RTypeRiscInstruction`. -/
structure RTypeInstr where
  rd : Nat
  rs1 : Nat
  rs2 : Nat
deriving DecidableEq, Repr

/-- Fields of `ITypeRiscInstruction`. -/
structure ITypeInstr where
  rd : Nat
  rs1 : Nat
  n : RiscInteger
deriving DecidableEq, Repr

/-- Fields of `STypeRiscInstruction`. -/
structure STypeInstr where
  rs1 : Nat
  rs2 : Nat
  n : RiscInteger
deriving DecidableEq, Repr

/-- Fields of `SBTypeRiscInstruction`. -/
structure SBTypeInstr where
  rs1 : Nat
  rs2 : Nat
  offset : RiscInteger
deriving DecidableEq, Repr

/-- `RiscInstruction.__init__(code)` (the opcode check) followed by
`RTypeRiscInstruction.decode`: extract `rd`, check `funct3`, extract `rs1`
and `rs2`, check `funct7`. -/
def decodeR (OPC F3 F7 : Nat) (code : RiscInteger) : Except String RTypeInstr :=
  if sliceVal code 0 7 ≠ OPC then Except.error "Wrong opcode"
  else if sliceVal code 12 15 ≠ F3 then Except.error "Wrong funct3"
  else if sliceVal code 25 32 ≠ F7 then Except.error "Wrong funct7"
  else Except.ok ⟨sliceVal code 7 12, sliceVal code 15 20, sliceVal code 20 25⟩

/-- `RTypeRiscInstruction.encode`: the fragment list
`[(OPCODE,7), (rd,5), (FUNCT3,3), (rs1,5), (rs2,5), (FUNCT7,7)]`. -/
def encodeR (OPC F3 F7 : Nat) (i : RTypeInstr) : RiscInteger :=
  ⟨natBits OPC 7 ++ natBits i.rd 5 ++ natBits F3 3 ++ natBits i.rs1 5 ++
    natBits i.rs2 5 ++ natBits F7 7⟩

/-- `ITypeRiscInstruction.decode`: `rd`, `funct3` check, `rs1`, and the
immediate `RiscInteger([code.bits[20:], code.bits[31:32] * 20])`
(sign-extension by replicating bit 31). -/
def decodeI (OPC F3 : Nat) (code : RiscInteger) : Except String ITypeInstr :=
  if sliceVal code 0 7 ≠ OPC then Except.error "Wrong opcode"
  else if sliceVal code 12 15 ≠ F3 then Except.error "Wrong funct3"
  else Except.ok ⟨sliceVal code 7 12, sliceVal code 15 20,
    ⟨code.bits.drop 20 ++ pyRep ((code.bits.drop 31).take 1) 20⟩⟩

/-- `ITypeRiscInstruction.encode`: `[(OPCODE,7), (rd,5), (FUNCT3,3),
(rs1,5), (n,12)]` — the `(RiscInteger, 12)` fragment takes `n.bits[:12]`. -/
def encodeI (OPC F3 : Nat) (i : ITypeInstr) : RiscInteger :=
  ⟨natBits OPC 7 ++ natBits i.rd 5 ++ natBits F3 3 ++ natBits i.rs1 5 ++
    i.n.bits.take 12⟩

/-- `STypeRiscInstruction.decode`: the immediate is
`RiscInteger([code.bits[7:12], code.bits[25:], code.bits[31:] * 20])`, then
the `funct3` check, `rs1` and `rs2`. -/
def decodeS (OPC F3 : Nat) (code : RiscInteger) : Except String STypeInstr :=
  if sliceVal code 0 7 ≠ OPC then Except.error "Wrong opcode"
  else if sliceVal code 12 15 ≠ F3 then Except.error "Wrong funct3"
  else Except.ok ⟨sliceVal code 15 20, sliceVal code 20 25,
    ⟨(code.bits.drop 7).take 5 ++ code.bits.drop 25 ++
      pyRep ((code.bits.drop 31).take 1) 20⟩⟩

/-- `STypeRiscInstruction.encode`: `[(OPCODE,7), n.bits[0:5], (FUNCT3,3),
(rs1,5), (rs2,5), n.bits[5:12]]`. -/
def encodeS (OPC F3 : Nat) (i : STypeInstr) : RiscInteger :=
  ⟨natBits OPC 7 ++ i.n.bits.take 5 ++ natBits F3 3 ++ natBits i.rs1 5 ++
    natBits i.rs2 5 ++ (i.n.bits.drop 5).take 7⟩

/-- `SBTypeRiscInstruction.decode` with the default `swirl=True`: the offset
is `RiscInteger([[False], code.bits[8:12], code.bits[25:31], code.bits[7:8],
code.bits[31:] * 20])`, then the `funct3` check, `rs1` and `rs2`. -/
def decodeSB (OPC F3 : Nat) (code : RiscInteger) : Except String SBTypeInstr :=
  if sliceVal code 0 7 ≠ OPC then Except.error "Wrong opcode"
  else if sliceVal code 12 15 ≠ F3 then Except.error "Wrong funct3"
  else Except.ok ⟨sliceVal code 15 20, sliceVal code 20 25,
    ⟨[false] ++ (code.bits.drop 8).take 4 ++ (code.bits.drop 25).take 6 ++
      (code.bits.drop 7).take 1 ++ pyRep ((code.bits.drop 31).take 1) 20⟩⟩

/-- `SBTypeRiscInstruction.encode` with the default `swirl=True`:
`[(OPCODE,7), offset.bits[11:12], offset.bits[1:5], (FUNCT3,3), (rs1,5),
(rs2,5), offset.bits[5:11], offset.bits[12:13]]`. -/
def encodeSB (OPC F3 : Nat) (i : SBTypeInstr) : RiscInteger :=
  ⟨natBits OPC 7 ++ (i.offset.bits.drop 11).take 1 ++
    (i.offset.bits.drop 1).take 4 ++ natBits F3 3 ++ natBits i.rs1 5 ++
    natBits i.rs2 5 ++ (i.offset.bits.drop 5).take 6 ++
    (i.offset.bits.drop 12).take 1⟩

/-- Validly-constructed R-type instruction: register indices fit in their
five-bit fields. -/
def validR (i : RTypeInstr) : Prop := i.rd < 32 ∧ i.rs1 < 32 ∧ i.rs2 < 32

instance (i : RTypeInstr) : Decidable (validR i) := by
  unfold validR; infer_instance

/-- A well-formed immediate representable in a sign-extended 12-bit field:
bits 11 through 31 all agree. -/
def signExt12 (n : RiscInteger) : Prop :=
  n.wf ∧ ∀ i, i < 32 → 11 ≤ i → n.bits.getD i false = n.bits.getD 11 false

instance (n : RiscInteger) : Decidable (signExt12 n) := by
  unfold signExt12 RiscInteger.wf; infer_instance

/-- Validly-constructed I-type instruction. -/
def validI (ins : ITypeInstr) : Prop :=
  ins.rd < 32 ∧ ins.rs1 < 32 ∧ signExt12 ins.n

instance (ins : ITypeInstr) : Decidable (validI ins) := by
  unfold validI; infer_instance

/-- Validly-constructed S-type instruction. -/
def validS (ins : STypeInstr) : Prop :=
  ins.rs1 < 32 ∧ ins.rs2 < 32 ∧ signExt12 ins.n

instance (ins : STypeInstr) : Decidable (validS ins) := by
  unfold validS; infer_instance

/-- Validly-constructed SB-type instruction: register indices in range, a
32-bit offset whose bit 0 is clear (it is never encoded) and whose bits 12
through 31 all agree (a sign-extended 13-bit value). -/
def validSB (ins : SBTypeInstr) : Prop :=
  ins.rs1 < 32 ∧ ins.rs2 < 32 ∧ ins.offset.wf ∧
    ins.offset.bits.getD 0 false = false ∧
    ∀ i, i < 32 → 12 ≤ i →
      ins.offset.bits.getD i false = ins.offset.bits.getD 12 false

instance (ins : SBTypeInstr) : Decidable (validSB ins) := by
  unfold validSB RiscInteger.wf; infer_instance

/-- Propositional equality on `Except` values is decidable when it is on the
payloads; used to evaluate the executable embedding inside proofs. -/
instance {e a : Type} [DecidableEq e] [DecidableEq a] : DecidableEq (Except e a) := fun x y =>
  match x, y with
  | .ok u, .ok w =>
      if h : u = w then .isTrue (congrArg Except.ok h)
      else .isFalse (fun hc => h (Except.ok.inj hc))
  | .error u, .error w =>
      if h : u = w then .isTrue (congrArg Except.error h)
      else .isFalse (fun hc => h (Except.error.inj hc))
  | .ok _, .error _ => .isFalse (fun hc => Except.noConfusion hc)
  | .error _, .ok _ => .isFalse (fun hc => Except.noConfusion hc)

/-- Iterated `write_register` calls to one register index, in sequence. -/
def writeSeq : RiscMachine → Nat → List RiscInteger → Except String RiscMachine
  | m, _, [] => Except.ok m
  | m, idx, v :: vs =>
      (m.write_register idx v).bind (fun m2 => writeSeq m2 idx vs)

/-! ### Basic facts about bit lists -/

theorem listToNat_lt (l : List Bool) : listToNat l < 2 ^ l.length := by
  induction l with
  | nil => simp [listToNat]
  | cons b bs ih =>
    simp only [listToNat, List.length_cons, pow_succ]
    cases b <;> simp <;> omega

theorem listToNat_inj {a b : List Bool} (hlen : a.length = b.length)
    (h : listToNat a = listToNat b) : a = b := by
  induction a generalizing b with
  | nil => cases b with
    | nil => rfl
    | cons y ys => simp at hlen
  | cons x xs ih =>
    cases b with
    | nil => simp at hlen
    | cons y ys =>
      simp only [listToNat] at h
      simp only [List.length_cons, Nat.succ_inj] at hlen
      have hxy : x = y := by cases x <;> cases y <;> simp at h ⊢ <;> omega
      have hrest : listToNat xs = listToNat ys := by cases x <;> cases y <;> simp at h <;> omega
      rw [hxy, ih hlen hrest]

@[simp] theorem natBits_length (v n : Nat) : (natBits v n).length = n := by
  induction n generalizing v with
  | zero => rfl
  | succ n ih => simp [natBits, ih]

@[simp] theorem intBits_length (v : Int) (n : Nat) : (intBits v n).length = n := by
  induction n generalizing v with
  | zero => rfl
  | succ n ih => simp [intBits, ih]

theorem rippleAdd_length (a b : List Bool) (c : Bool) :
    (RiscInteger.rippleAdd a b c).length = min a.length b.length := by
  induction a generalizing b c with
  | nil => cases b <;> simp [RiscInteger.rippleAdd]
  | cons x xs ih =>
    cases b with
    | nil => simp [RiscInteger.rippleAdd]
    | cons y ys => simp [RiscInteger.rippleAdd, ih]; omega

theorem nat_emod_double (v K : Nat) (hK : 0 < K) :
    v % (2 * K) = v % 2 + 2 * ((v / 2) % K) := by
  have h1 : 2 * ((v / 2) % K) = (2 * (v / 2)) % (2 * K) := (Nat.mul_mod_mul_left 2 _ K).symm
  have h2 : 2 * (v / 2) = v - v % 2 := by omega
  have h3 : v % 2 < 2 := Nat.mod_lt v (by norm_num)
  have h4 : (v - v % 2) % (2 * K) < 2 * K := Nat.mod_lt _ (by omega)
  have h5 : 2 ∣ (v - v % 2) := by omega
  have h6 : 2 ∣ (v - v % 2) % (2 * K) := (Nat.dvd_mod_iff ⟨K, rfl⟩).mpr h5
  have h7 : v % 2 + (v - v % 2) % (2 * K) < 2 * K := by omega
  have h8 : v % 2 % (2 * K) = v % 2 := Nat.mod_eq_of_lt (by omega)
  calc v % (2 * K) = (v % 2 + (v - v % 2)) % (2 * K) := by
        rw [Nat.add_sub_cancel' (Nat.mod_le v 2)]
    _ = (v % 2 + (v - v % 2) % (2 * K)) % (2 * K) := by
        conv_lhs => rw [Nat.add_mod]
        conv_rhs => rw [Nat.add_mod, Nat.mod_mod_of_dvd _ dvd_rfl]
    _ = v % 2 + (v - v % 2) % (2 * K) := Nat.mod_eq_of_lt h7
    _ = v % 2 + 2 * ((v / 2) % K) := by rw [h1, h2]

theorem int_emod_double (v K : Int) (hK : 0 < K) :
    v % (2 * K) = v % 2 + 2 * ((v / 2) % K) := by
  have hq : 2 * (v / 2) + v % 2 = v := Int.ediv_add_emod v 2
  have hs : K * (v / 2 / K) + (v / 2) % K = v / 2 := Int.ediv_add_emod (v / 2) K
  have hr0 : 0 ≤ v % 2 := Int.emod_nonneg v (by norm_num)
  have hr2 : v % 2 < 2 := Int.emod_lt_of_pos v (by norm_num)
  have hs0 : 0 ≤ (v / 2) % K := Int.emod_nonneg _ (ne_of_gt hK)
  have hs2 : (v / 2) % K < K := Int.emod_lt_of_pos _ hK
  have key : v = (v % 2 + 2 * ((v / 2) % K)) + (2 * K) * (v / 2 / K) := by
    linear_combination (-1 : Int) * hq - 2 * hs
  calc v % (2 * K)
      = ((v % 2 + 2 * ((v / 2) % K)) + (2 * K) * (v / 2 / K)) % (2 * K) := by rw [← key]
    _ = (v % 2 + 2 * ((v / 2) % K)) % (2 * K) := by rw [Int.add_mul_emod_self_left]
    _ = v % 2 + 2 * ((v / 2) % K) := Int.emod_eq_of_lt (by linarith) (by linarith)

theorem nat_mod_double (r x K : Nat) (hr : r ≤ 1) (hK : 0 < K) :
    r + 2 * (x % K) = (r + 2 * x) % (2 * K) := by
  rw [nat_emod_double (r + 2 * x) K hK]
  have h1 : (r + 2 * x) % 2 = r := by omega
  have h2 : (r + 2 * x) / 2 = x := by omega
  rw [h1, h2]

theorem listToNat_natBits (v n : Nat) : listToNat (natBits v n) = v % 2 ^ n := by
  induction n generalizing v with
  | zero => simp [natBits, listToNat, Nat.mod_one]
  | succ n ih =>
    rw [natBits, listToNat, ih, pow_succ', nat_emod_double v (2 ^ n) (by positivity)]
    rcases Nat.mod_two_eq_zero_or_one v with h | h <;> simp [h]

theorem natBits_listToNat (l : List Bool) : natBits (listToNat l) l.length = l := by
  induction l with
  | nil => rfl
  | cons b bs ih =>
    rw [listToNat, List.length_cons, natBits]
    have hd : (cond b 1 0 + 2 * listToNat bs) / 2 = listToNat bs := by
      cases b <;> simp only [cond_true, cond_false] <;> omega
    congr 1
    · cases b
      · simp only [cond_false, beq_eq_false_iff_ne, ne_eq]
        omega
      · simp only [cond_true, beq_iff_eq]
        omega
    · rw [hd, ih]

theorem listToNat_intBits (v : Int) (n : Nat) :
    (listToNat (intBits v n) : Int) = v % 2 ^ n := by
  induction n generalizing v with
  | zero => simp [intBits, listToNat]
  | succ n ih =>
    have hpow : (2 : Int) ^ (n + 1) = 2 * 2 ^ n := by ring
    rw [intBits, listToNat, hpow, int_emod_double v (2 ^ n) (by positivity)]
    push_cast
    rw [ih]
    rcases Int.emod_two_eq v with h | h <;> simp [h]

theorem RiscInteger.eq_of_listToNat {a b : RiscInteger} (ha : a.wf) (hb : b.wf)
    (h : listToNat a.bits = listToNat b.bits) : a = b := by
  cases a; cases b
  simp only [RiscInteger.wf] at ha hb
  exact congrArg RiscInteger.mk (listToNat_inj (ha.trans hb.symm) h)

theorem listToNat_rippleAdd (a b : List Bool) (c : Bool) (h : a.length = b.length) :
    listToNat (RiscInteger.rippleAdd a b c) =
      (listToNat a + listToNat b + cond c 1 0) % 2 ^ a.length := by
  induction a generalizing b c with
  | nil =>
    cases b with
    | nil => cases c <;> simp [RiscInteger.rippleAdd, listToNat]
    | cons y ys => simp at h
  | cons x xs ih =>
    cases b with
    | nil => simp at h
    | cons y ys =>
      simp only [List.length_cons, Nat.succ_inj] at h
      simp only [RiscInteger.rippleAdd, listToNat, List.length_cons]
      rw [ih _ _ h, pow_succ',
        nat_mod_double _ _ _ (by cases xor (xor x y) c <;> simp) (by positivity)]
      have hbit : cond (xor (xor x y) c) 1 0 +
          2 * cond ((x && y) || (c && xor x y)) 1 0 =
          cond x 1 0 + cond y 1 0 + cond c 1 0 := by
        cases x <;> cases y <;> cases c <;> rfl
      congr 1
      omega

/-! ### Addition: value-level correctness and the carry recurrence -/

@[simp] theorem ofInt_wf (v : Int) : (RiscInteger.ofInt v).wf := by
  simp [RiscInteger.wf, RiscInteger.ofInt]

theorem add_wf {a b : RiscInteger} (ha : a.wf) (hb : b.wf) : (a.add b).wf := by
  simp only [RiscInteger.wf] at ha hb ⊢
  rw [RiscInteger.add, rippleAdd_length, ha, hb]
  exact Nat.min_self 32

theorem listToNat_ofInt (v : Int) :
    (listToNat (RiscInteger.ofInt v).bits : Int) = v % 2 ^ 32 :=
  listToNat_intBits v 32

set_option maxHeartbeats 1000000 in
theorem listToNat_add_ofInt (a b : Int) :
    (listToNat (RiscInteger.add (.ofInt a) (.ofInt b)).bits : Int) = (a + b) % 2 ^ 32 := by
  have h := listToNat_rippleAdd (intBits a 32) (intBits b 32) false (by simp)
  simp only [intBits_length] at h
  simp only [RiscInteger.add, RiscInteger.ofInt]
  rw [h]
  push_cast
  rw [listToNat_intBits, listToNat_intBits]
  simp [← Int.add_emod]

theorem wrapSigned_emod (x : Int) : wrapSigned x % 2 ^ 32 = x % 2 ^ 32 := by
  rw [wrapSigned]
  split <;> omega

theorem add_ofInt_eq_wrap (a b : Int) :
    RiscInteger.add (.ofInt a) (.ofInt b) = RiscInteger.ofInt (wrapSigned (a + b)) := by
  refine RiscInteger.eq_of_listToNat (add_wf (ofInt_wf a) (ofInt_wf b)) (ofInt_wf _) ?_
  have h1 := listToNat_add_ofInt a b
  have h2 := listToNat_ofInt (wrapSigned (a + b))
  rw [wrapSigned_emod] at h2
  exact_mod_cast h1.trans h2.symm

theorem rippleAdd_getD (a b : List Bool) (c : Bool) (i : Nat)
    (ha : i < a.length) (hb : i < b.length) :
    (RiscInteger.rippleAdd a b c).getD i false =
      xor (xor (a.getD i false) (b.getD i false)) (carryAt a b c i) := by
  induction i generalizing a b c with
  | zero =>
    cases a with
    | nil => simp at ha
    | cons x xs =>
      cases b with
      | nil => simp at hb
      | cons y ys => rfl
  | succ i ih =>
    cases a with
    | nil => simp at ha
    | cons x xs =>
      cases b with
      | nil => simp at hb
      | cons y ys =>
        simp only [RiscInteger.rippleAdd, List.getD_cons_succ, carryAt]
        exact ih xs ys _ (by simpa using ha) (by simpa using hb)

theorem carryAt_succ (x y : List Bool) (c : Bool) (i : Nat)
    (hx : i < x.length) (hy : i < y.length) :
    carryAt x y c (i + 1) =
      ((x.getD i false && y.getD i false) ||
        (carryAt x y c i && xor (x.getD i false) (y.getD i false))) := by
  induction i generalizing x y c with
  | zero =>
    cases x with
    | nil => simp at hx
    | cons a as =>
      cases y with
      | nil => simp at hy
      | cons b bs => simp [carryAt]
  | succ i ih =>
    cases x with
    | nil => simp at hx
    | cons a as =>
      cases y with
      | nil => simp at hy
      | cons b bs =>
        simp only [carryAt, List.getD_cons_succ]
        exact ih as bs _ (by simpa using hx) (by simpa using hy)

theorem carrySpec_eq_carryAt (a b : RiscInteger) (ha : a.wf) (hb : b.wf)
    (i : Nat) (hi : i ≤ 32) :
    carrySpec a b i = carryAt a.bits b.bits false i := by
  simp only [RiscInteger.wf] at ha hb
  induction i with
  | zero => simp [carrySpec, carryAt]
  | succ i ih =>
    rw [carrySpec, carryAt_succ _ _ _ i (by omega) (by omega), ← ih (by omega)]

theorem add_getD_formula (a b : RiscInteger) (ha : a.wf) (hb : b.wf)
    (i : Nat) (hi : i < 32) :
    (a.add b).bits.getD i false =
      xor (xor (a.bits.getD i false) (b.bits.getD i false)) (carrySpec a b i) := by
  have ha' := ha; have hb' := hb
  simp only [RiscInteger.wf] at ha' hb'
  rw [RiscInteger.add]
  rw [show (RiscInteger.mk (RiscInteger.rippleAdd a.bits b.bits false)).bits =
    RiscInteger.rippleAdd a.bits b.bits false from rfl]
  rw [rippleAdd_getD a.bits b.bits false i (by omega) (by omega),
    carrySpec_eq_carryAt a b ha hb i (by omega)]

/-- C2: for all integers `a`, `b` in the signed 32-bit range, adding
`RiscInteger(a)` and `RiscInteger(b)` yields the `RiscInteger` whose value is
`(a+b) mod 2^32` interpreted as signed two's complement — silently wrapping,
still 32 bits, no error; in particular `2^31-1 + 1 = -2^31` and
`-2^31 + -1 = 2^31-1`; and bit `i` of the result is
`a[i] XOR b[i] XOR carry_i` where the carry propagates by
`(a[i] AND b[i]) OR (carry_i AND (a[i] XOR b[i]))`. -/
theorem c2_add_wraparound (a b : Int)
    (ha1 : -(2 ^ 31) ≤ a) (ha2 : a < 2 ^ 31)
    (hb1 : -(2 ^ 31) ≤ b) (hb2 : b < 2 ^ 31) :
    RiscInteger.add (.ofInt a) (.ofInt b) = RiscInteger.ofInt (wrapSigned (a + b)) ∧
    (RiscInteger.add (.ofInt a) (.ofInt b)).wf ∧
    RiscInteger.add (.ofInt (2 ^ 31 - 1)) (.ofInt 1) = RiscInteger.ofInt (-(2 ^ 31)) ∧
    RiscInteger.add (.ofInt (-(2 ^ 31))) (.ofInt (-1)) = RiscInteger.ofInt (2 ^ 31 - 1) ∧
    ∀ i, i < 32 →
      (RiscInteger.add (.ofInt a) (.ofInt b)).bits.getD i false =
        xor (xor ((RiscInteger.ofInt a).bits.getD i false)
            ((RiscInteger.ofInt b).bits.getD i false))
          (carrySpec (.ofInt a) (.ofInt b) i) := by
  refine ⟨add_ofInt_eq_wrap a b, add_wf (ofInt_wf a) (ofInt_wf b), ?_, ?_, ?_⟩
  · rw [add_ofInt_eq_wrap]
    norm_num [wrapSigned]
  · rw [add_ofInt_eq_wrap]
    norm_num [wrapSigned]
  · intro i hi
    exact add_getD_formula _ _ (ofInt_wf a) (ofInt_wf b) i hi

/-- Witness for C2 at `a = 5`, `b = -3`. -/
theorem c2_add_wraparound_witness :
    RiscInteger.add (.ofInt 5) (.ofInt (-3)) = RiscInteger.ofInt (wrapSigned (5 + -3)) :=
  (c2_add_wraparound 5 (-3) (by norm_num) (by norm_num) (by norm_num) (by norm_num)).1

/-! ### Unsigned and signed comparison -/

theorem listToNatMsb_lt (l : List Bool) : listToNatMsb l < 2 ^ l.length := by
  induction l with
  | nil => simp [listToNatMsb]
  | cons b bs ih =>
    simp only [listToNatMsb, List.length_cons, pow_succ]
    cases b <;> simp <;> omega

theorem listToNatMsb_append (u v : List Bool) :
    listToNatMsb (u ++ v) = listToNatMsb u * 2 ^ v.length + listToNatMsb v := by
  induction u with
  | nil => simp [listToNatMsb]
  | cons b bs ih =>
    rw [List.cons_append, listToNatMsb, listToNatMsb, ih, List.length_append, pow_add]
    ring

theorem listToNatMsb_reverse (l : List Bool) : listToNatMsb l.reverse = listToNat l := by
  induction l with
  | nil => rfl
  | cons b bs ih =>
    rw [listToNat, List.reverse_cons, listToNatMsb_append, ih]
    simp [listToNatMsb]
    ring

theorem cmpMsb_eq_decide (a b : List Bool) (h : a.length = b.length) :
    RiscInteger.cmpMsb a b = decide (listToNatMsb a < listToNatMsb b) := by
  induction a generalizing b with
  | nil =>
    cases b with
    | nil => simp [RiscInteger.cmpMsb, listToNatMsb]
    | cons y ys => simp at h
  | cons x xs ih =>
    cases b with
    | nil => simp at h
    | cons y ys =>
      simp only [List.length_cons, Nat.succ_inj] at h
      have hxs := listToNatMsb_lt xs
      have hys := listToNatMsb_lt ys
      rw [h] at hxs
      cases x <;> cases y <;>
        simp [RiscInteger.cmpMsb, listToNatMsb, h, ih ys h] <;>
        omega

theorem compare_unsigned_eq (x y : RiscInteger) (hx : x.wf) (hy : y.wf) :
    x.compare_unsigned y = decide (listToNat x.bits < listToNat y.bits) := by
  simp only [RiscInteger.wf] at hx hy
  rw [RiscInteger.compare_unsigned,
    cmpMsb_eq_decide _ _ (by simp [hx, hy]),
    listToNatMsb_reverse, listToNatMsb_reverse]

theorem listToNat_append (u v : List Bool) :
    listToNat (u ++ v) = listToNat u + 2 ^ u.length * listToNat v := by
  induction u with
  | nil => simp [listToNat]
  | cons b bs ih =>
    rw [List.cons_append, listToNat, listToNat, ih, List.length_cons, pow_succ]
    ring

theorem drop31_eq (l : List Bool) (h : l.length = 32) :
    l.drop 31 = [l.getD 31 false] := by
  have hlen : (l.drop 31).length = 1 := by simp [h]
  have hget : (l.drop 31).getD 0 false = l.getD 31 false := by
    rw [List.getD_eq_getElem?_getD, List.getD_eq_getElem?_getD, List.getElem?_drop]
  cases hd : l.drop 31 with
  | nil => rw [hd] at hlen; simp at hlen
  | cons a t =>
    rw [hd] at hlen hget
    cases t with
    | nil =>
      simp only [List.getD_cons_zero] at hget
      rw [hget]
    | cons c u => simp at hlen

theorem listToNat_split31 (x : RiscInteger) (hx : x.wf) :
    listToNat x.bits = listToNat (x.bits.take 31) + 2 ^ 31 * cond x.sign_bit 1 0 := by
  have h := hx
  simp only [RiscInteger.wf] at h
  conv_lhs => rw [← List.take_append_drop 31 x.bits]
  rw [listToNat_append, drop31_eq x.bits h]
  have : (x.bits.take 31).length = 31 := by simp [h]
  rw [this, RiscInteger.sign_bit]
  cases x.bits.getD 31 false <;> simp [listToNat]

theorem take31_lt (x : RiscInteger) (hx : x.wf) :
    listToNat (x.bits.take 31) < 2 ^ 31 := by
  have h := hx
  simp only [RiscInteger.wf] at h
  have := listToNat_lt (x.bits.take 31)
  rwa [show (x.bits.take 31).length = 31 by simp [h]] at this

theorem to_int_eq (x : RiscInteger) (hx : x.wf) :
    x.to_int true = (listToNat x.bits : Int) - (if x.sign_bit then 2 ^ 32 else 0) := by
  rw [RiscInteger.to_int, listToNat_split31 x hx]
  cases hs : x.sign_bit <;> push_cast <;> simp [hs] <;> ring

theorem lt_iff_to_int (x y : RiscInteger) (hx : x.wf) (hy : y.wf) :
    RiscInteger.lt x y = true ↔ x.to_int true < y.to_int true := by
  have hsplx := listToNat_split31 x hx
  have hsply := listToNat_split31 y hy
  have hlowx := take31_lt x hx
  have hlowy := take31_lt y hy
  rw [RiscInteger.lt, compare_unsigned_eq x y hx hy, to_int_eq x hx, to_int_eq y hy]
  cases hsx : x.sign_bit <;> cases hsy : y.sign_bit <;>
      rw [hsx] at hsplx <;> rw [hsy] at hsply <;>
      simp only [cond_true, cond_false, mul_one, mul_zero, add_zero] at hsplx hsply <;>
      simp <;> omega

/-- C3: signed less-than is unsigned bit-pattern comparison corrected by the
two sign bits, and it coincides with mathematical comparison of the
two's-complement values. -/
theorem c3_signed_less_than (x y : RiscInteger) (hx : x.wf) (hy : y.wf) :
    (RiscInteger.lt x y =
      ((x.compare_unsigned y).xor x.sign_bit).xor y.sign_bit) ∧
    (RiscInteger.lt x y = true ↔ x.to_int true < y.to_int true) :=
  ⟨rfl, lt_iff_to_int x y hx hy⟩

/-- Witness for C3 at the extremes `-2^31` vs `2^31-1`. -/
theorem c3_signed_less_than_witness :
    (RiscInteger.lt (.ofInt (-(2 ^ 31))) (.ofInt (2 ^ 31 - 1)) =
      (((RiscInteger.ofInt (-(2 ^ 31))).compare_unsigned
          (.ofInt (2 ^ 31 - 1))).xor
        (RiscInteger.ofInt (-(2 ^ 31))).sign_bit).xor
        (RiscInteger.ofInt (2 ^ 31 - 1)).sign_bit) ∧
    (RiscInteger.lt (.ofInt (-(2 ^ 31))) (.ofInt (2 ^ 31 - 1)) = true ↔
      (RiscInteger.ofInt (-(2 ^ 31))).to_int true <
        (RiscInteger.ofInt (2 ^ 31 - 1)).to_int true) :=
  c3_signed_less_than _ _ (ofInt_wf _) (ofInt_wf _)

/-! ### Shifts -/

theorem getD_take_lt (l : List Bool) (k i : Nat) (h : i < k) :
    (l.take k).getD i false = l.getD i false := by
  rw [List.getD_eq_getElem?_getD, List.getD_eq_getElem?_getD, List.getElem?_take, if_pos h]

theorem getD_drop (l : List Bool) (n i : Nat) :
    (l.drop n).getD i false = l.getD (n + i) false := by
  rw [List.getD_eq_getElem?_getD, List.getD_eq_getElem?_getD, List.getElem?_drop]

theorem getD_replicate_false (n j : Nat) :
    (List.replicate n false).getD j false = false := by
  rw [List.getD_eq_getElem?_getD, List.getElem?_replicate]
  split <;> rfl

/-- C8: shifting by 0 is the identity, shifting by 32 or more gives the
all-zero word, and shifting by `n` in `[1,31]` translates bit indices with
zero fill: bit `i` of the left shift is `0` for `i < n` and `a[i-n]`
otherwise; bit `i` of the right shift is `a[i+n]` for `i < 32-n` and `0`
otherwise. -/
theorem c8_shift_identities (a : RiscInteger) (ha : a.wf) :
    RiscInteger.lshift a 0 = a ∧
    RiscInteger.rshift a 0 = a ∧
    (∀ n, 32 ≤ n → RiscInteger.lshift a n = ⟨List.replicate 32 false⟩ ∧
      RiscInteger.rshift a n = ⟨List.replicate 32 false⟩) ∧
    (∀ n, 1 ≤ n → n ≤ 31 → ∀ i, i < 32 →
      ((RiscInteger.lshift a n).bits.getD i false =
        if i < n then false else a.bits.getD (i - n) false) ∧
      ((RiscInteger.rshift a n).bits.getD i false =
        if i < 32 - n then a.bits.getD (i + n) false else false)) := by
  have hlen := ha
  simp only [RiscInteger.wf] at hlen
  refine ⟨rfl, ?_, ?_, ?_⟩
  · simp [RiscInteger.rshift]
  · intro n hn
    have hp : (if n > 32 then 32 else n) = 32 := by split <;> omega
    constructor
    · simp only [RiscInteger.lshift, if_neg (show ¬ n = 0 by omega), hp, hlen]
      simp
    · simp only [RiscInteger.rshift, hp]
      simp [List.drop_eq_nil_of_le, hlen]
  · intro n h1 h31 i hi
    have hp : (if n > 32 then 32 else n) = n := by split <;> omega
    constructor
    · simp only [RiscInteger.lshift, if_neg (show ¬ n = 0 by omega), hp]
      by_cases hin : i < n
      · rw [if_pos hin, List.getD_append _ _ _ _ (by simp; omega)]
        exact getD_replicate_false n i
      · rw [if_neg hin, List.getD_append_right _ _ _ _ (by simp; omega)]
        simp only [List.length_replicate, hlen]
        exact getD_take_lt _ _ _ (by omega)
    · simp only [RiscInteger.rshift, hp]
      by_cases hin : i < 32 - n
      · rw [if_pos hin, List.getD_append _ _ _ _ (by simp [hlen]; omega), getD_drop,
          Nat.add_comm]
      · rw [if_neg hin, List.getD_append_right _ _ _ _ (by simp [hlen]; omega)]
        exact getD_replicate_false ..

/-- Witness for C8 at a concrete 32-bit word. -/
theorem c8_shift_identities_witness :
    RiscInteger.lshift (.ofInt 1337) 0 = RiscInteger.ofInt 1337 :=
  (c8_shift_identities (.ofInt 1337) (ofInt_wf 1337)).1

/-! ### 32-bit closure of every operation -/

theorem neg_wf {a : RiscInteger} (ha : a.wf) : (RiscInteger.neg a).wf := by
  refine add_wf ?_ (ofInt_wf 1)
  simp only [RiscInteger.wf] at ha ⊢
  simpa using ha

/-- C9: every `RiscInteger` operation (addition, negation, subtraction,
bitwise or, bitwise and, left shift, right shift by any amount) applied to
32-bit operands returns a value with exactly 32 bits.  (The embedding is
purely functional, so operands are never mutated; the substantive content of
the claim is preservation of the exactly-32-bits invariant.) -/
theorem c9_ops_preserve_32bits (a b : RiscInteger) (ha : a.wf) (hb : b.wf) (n : Nat) :
    (RiscInteger.add a b).wf ∧ (RiscInteger.neg a).wf ∧ (RiscInteger.sub a b).wf ∧
    (RiscInteger.orRisc a b).wf ∧ (RiscInteger.andRisc a b).wf ∧
    (RiscInteger.lshift a n).wf ∧ (RiscInteger.rshift a n).wf := by
  have hlen := ha
  simp only [RiscInteger.wf] at hlen
  refine ⟨add_wf ha hb, neg_wf ha, add_wf ha (neg_wf hb), ?_, ?_, ?_, ?_⟩
  · simp [RiscInteger.wf, RiscInteger.orRisc]
  · simp [RiscInteger.wf, RiscInteger.andRisc]
  · simp only [RiscInteger.wf, RiscInteger.lshift]
    split
    · exact hlen
    · simp only [List.length_append, List.length_replicate, List.length_take, hlen]
      split <;> omega
  · simp only [RiscInteger.wf, RiscInteger.rshift, List.length_append,
      List.length_replicate, List.length_drop, hlen]
    split <;> omega

/-- Witness for C9 at concrete operands. -/
theorem c9_ops_preserve_32bits_witness :
    (RiscInteger.add (.ofInt 123) (.ofInt 456)).wf ∧
    (RiscInteger.neg (.ofInt 123)).wf ∧
    (RiscInteger.sub (.ofInt 123) (.ofInt 456)).wf ∧
    (RiscInteger.orRisc (.ofInt 123) (.ofInt 456)).wf ∧
    (RiscInteger.andRisc (.ofInt 123) (.ofInt 456)).wf ∧
    (RiscInteger.lshift (.ofInt 123) 7).wf ∧
    (RiscInteger.rshift (.ofInt 123) 7).wf :=
  c9_ops_preserve_32bits (.ofInt 123) (.ofInt 456) (ofInt_wf 123) (ofInt_wf 456) 7


/-! ### Subtraction correctness (needed for label-offset resolution) -/

theorem listToNat_add_gen (x y : RiscInteger) (hx : x.wf) (hy : y.wf) :
    listToNat (RiscInteger.add x y).bits =
      (listToNat x.bits + listToNat y.bits) % 2 ^ 32 := by
  simp only [RiscInteger.wf] at hx hy
  have h := listToNat_rippleAdd x.bits y.bits false (by rw [hx, hy])
  rw [hx] at h
  simpa [RiscInteger.add] using h

theorem listToNat_map_not (l : List Bool) :
    listToNat (l.map (fun b => !b)) = 2 ^ l.length - 1 - listToNat l := by
  induction l with
  | nil => rfl
  | cons b bs ih =>
    have hlt := listToNat_lt bs
    simp only [List.map_cons, listToNat, List.length_cons, ih, pow_succ]
    cases b <;> simp <;> omega

theorem listToNat_neg (y : RiscInteger) (hy : y.wf) :
    listToNat (RiscInteger.neg y).bits = (2 ^ 32 - listToNat y.bits) % 2 ^ 32 := by
  have hy' := hy
  simp only [RiscInteger.wf] at hy'
  have hmap : (RiscInteger.mk (y.bits.map (fun b => !b))).wf := by
    simp [RiscInteger.wf, hy']
  rw [RiscInteger.neg, listToNat_add_gen _ _ hmap (ofInt_wf 1)]
  have h1 : listToNat (RiscInteger.ofInt 1).bits = 1 := by decide
  rw [h1]
  show (listToNat (y.bits.map (fun b => !b)) + 1) % 2 ^ 32 =
    (2 ^ 32 - listToNat y.bits) % 2 ^ 32
  rw [listToNat_map_not, hy']
  have := listToNat_lt y.bits
  rw [hy'] at this
  congr 1
  omega

theorem sub_ofInt_eq_wrap (a b : Int) :
    RiscInteger.sub (.ofInt a) (.ofInt b) = RiscInteger.ofInt (wrapSigned (a - b)) := by
  refine RiscInteger.eq_of_listToNat
    (add_wf (ofInt_wf a) (neg_wf (ofInt_wf b))) (ofInt_wf _) ?_
  have h1 := listToNat_add_gen (.ofInt a) (RiscInteger.neg (.ofInt b))
    (ofInt_wf a) (neg_wf (ofInt_wf b))
  have h2 := listToNat_neg (.ofInt b) (ofInt_wf b)
  have h3 := listToNat_ofInt a
  have h4 := listToNat_ofInt b
  have h5 := listToNat_ofInt (wrapSigned (a - b))
  rw [wrapSigned_emod] at h5
  rw [RiscInteger.sub, h1, h2]
  omega

theorem wrapSigned_eq_self (x : Int) (h1 : -(2 ^ 31) ≤ x) (h2 : x < 2 ^ 31) :
    wrapSigned x = x := by
  rw [wrapSigned]
  split <;> omega

/-! ### Claim C4: label recording and branch-target resolution -/

/-- C4: during assembly a label line records the label at the current byte
offset without advancing it; a branch whose third operand is a label bound
to byte offset `T` in the label table, parsed at byte offset `L`, receives
the offset `T - L`; an unbound label raises a `ParseError` naming it. -/
theorem c4_label_resolution :
    (∀ (st : Pass1State) (raw : List Char),
      isLabelLine (trimChars (stripComment raw)) = true →
      pass1Step st raw = { st with locations :=
        ((trimChars (stripComment raw)).dropLast,
          RiscInteger.ofInt st.offset) :: st.locations }) ∧
    (∀ (locs : List (List Char × RiscInteger)) (T L : Nat) (name : List Char),
      T < 2 ^ 31 → L < 2 ^ 31 →
      parsePyInt? name = none →
      locs.lookup name = some (RiscInteger.ofInt T) →
      branchResolve locs (RiscInteger.ofInt L) name =
        Except.ok (RiscInteger.ofInt ((T : Int) - (L : Int)))) ∧
    (∀ (locs : List (List Char × RiscInteger)) (loc : RiscInteger) (name : List Char),
      parsePyInt? name = none →
      locs.lookup name = none →
      branchResolve locs loc name =
        Except.error ("Unable to resolve location \"" ++ String.mk name ++ "\"")) := by
  refine ⟨?_, ?_, ?_⟩
  · intro st raw h
    have hne : (trimChars (stripComment raw)).isEmpty = false := by
      cases htrim : trimChars (stripComment raw) with
      | nil => rw [htrim] at h; simp [isLabelLine] at h
      | cons c cs => rfl
    simp [pass1Step, hne, h]
  · intro locs T L name hT hL hname hlook
    simp only [branchResolve, hname, hlook]
    rw [sub_ofInt_eq_wrap, wrapSigned_eq_self _ (by omega) (by omega)]
  · intro locs loc name hname hlook
    simp only [branchResolve, hname, hlook]

/-- Witness for C4: a label line at offset 0; a backward reference from
offset 4 to a label at offset 8; a reference to an unbound label. -/
theorem c4_label_resolution_witness :
    (pass1Step ⟨[], [], 0⟩ "loop:".data = { Pass1State.mk [] [] 0 with
      locations := [((trimChars (stripComment "loop:".data)).dropLast,
        RiscInteger.ofInt 0)] }) ∧
    (branchResolve [("loop".data, RiscInteger.ofInt 8)] (RiscInteger.ofInt 4)
        "loop".data =
      Except.ok (RiscInteger.ofInt (((8 : Nat) : Int) - ((4 : Nat) : Int)))) ∧
    (branchResolve [] (RiscInteger.ofInt 0) "missing".data =
      Except.error ("Unable to resolve location \"" ++ String.mk "missing".data ++ "\"")) :=
  ⟨c4_label_resolution.1 ⟨[], [], 0⟩ "loop:".data (by decide),
   c4_label_resolution.2.1 [("loop".data, RiscInteger.ofInt 8)] 8 4 "loop".data
     (by norm_num) (by norm_num) (by decide) (by decide),
   c4_label_resolution.2.2 [] (RiscInteger.ofInt 0) "missing".data (by decide) rfl⟩

/-! ### Claim C5: end-to-end scenario -/

/-- C5: assembling `addi x1,x0,5` followed by `addi x2,x1,37` and running
the program to completion on a fresh machine leaves register `x2` holding 42
and the program counter equal to 8.  (Fuel 3 suffices: two executed
instructions plus the final loop-condition check; an `ok` result means the
simulator's `while` loop genuinely terminated.) -/
theorem c5_end_to_end :
    ((parse ["addi x1,x0,5", "addi x2,x1,37"]).bind
        (fun prog => simulate 3 prog RiscMachine.init)).map
      (fun m => (m.program_counter, m.read_register 2)) =
    Except.ok ((8 : Int), Except.ok (RiscInteger.ofInt 42)) := by
  decide

/-! ### Claim C6: the protected register -/

theorem writeSeq_protected (m : RiscMachine) (vs : List RiscInteger)
    (h0 : 0 ∈ m.protected_registers) :
    writeSeq m 0 vs =
      Except.ok { m with protected_registers_written :=
        if vs.isEmpty then m.protected_registers_written
        else m.protected_registers_written ∪ {0} } := by
  induction vs generalizing m with
  | nil => rfl
  | cons v vs ih =>
    have step : writeSeq m 0 (v :: vs) =
        writeSeq { m with protected_registers_written :=
          m.protected_registers_written ∪ {0} } 0 vs := by
      rw [writeSeq, RiscMachine.write_register, if_pos h0]
      rfl
    rw [step, ih { m with protected_registers_written :=
      m.protected_registers_written ∪ {0} } h0]
    cases hvs : vs.isEmpty <;>
      simp [hvs, Finset.union_assoc]

/-- C6: any sequence of writes to register 0 (a protected register) leaves
every machine field unchanged except the protected-write tracking set, which
gains index 0; in particular the read-back value of `x0` is unchanged, and
on a fresh machine it is zero. -/
theorem c6_protected_register (m : RiscMachine) (vs : List RiscInteger)
    (h0 : 0 ∈ m.protected_registers) :
    (writeSeq m 0 vs =
      Except.ok { m with protected_registers_written :=
        if vs.isEmpty then m.protected_registers_written
        else m.protected_registers_written ∪ {0} }) ∧
    (∀ m2, writeSeq m 0 vs = Except.ok m2 →
      m2.read_register 0 = m.read_register 0 ∧
      m2.registers = m.registers ∧
      m2.program_counter = m.program_counter ∧
      m2.memory = m.memory ∧
      m2.protected_registers = m.protected_registers ∧
      m2.protected_registers_written =
        (if vs.isEmpty then m.protected_registers_written
         else m.protected_registers_written ∪ {0})) ∧
    RiscMachine.init.read_register 0 = Except.ok (RiscInteger.ofInt 0) := by
  refine ⟨writeSeq_protected m vs h0, ?_, by decide⟩
  intro m2 h
  rw [writeSeq_protected m vs h0] at h
  injection h with h2
  subst h2
  exact ⟨rfl, rfl, rfl, rfl, rfl, rfl⟩

/-- Witness for C6: two writes to `x0` on a fresh machine. -/
theorem c6_protected_register_witness :
    (writeSeq RiscMachine.init 0 [RiscInteger.ofInt 7, RiscInteger.ofInt 9] =
      Except.ok { RiscMachine.init with protected_registers_written :=
        if ([RiscInteger.ofInt 7, RiscInteger.ofInt 9] : List RiscInteger).isEmpty then
          RiscMachine.init.protected_registers_written
        else RiscMachine.init.protected_registers_written ∪ {0} }) ∧
    (∀ m2, writeSeq RiscMachine.init 0 [RiscInteger.ofInt 7, RiscInteger.ofInt 9] =
        Except.ok m2 →
      m2.read_register 0 = RiscMachine.init.read_register 0 ∧
      m2.registers = RiscMachine.init.registers ∧
      m2.program_counter = RiscMachine.init.program_counter ∧
      m2.memory = RiscMachine.init.memory ∧
      m2.protected_registers = RiscMachine.init.protected_registers ∧
      m2.protected_registers_written =
        (if ([RiscInteger.ofInt 7, RiscInteger.ofInt 9] : List RiscInteger).isEmpty then
          RiscMachine.init.protected_registers_written
         else RiscMachine.init.protected_registers_written ∪ {0})) ∧
    RiscMachine.init.read_register 0 = Except.ok (RiscInteger.ofInt 0) :=
  c6_protected_register RiscMachine.init [RiscInteger.ofInt 7, RiscInteger.ofInt 9]
    (by decide)

/-! ### Claim C7: memory access -/

/-- C7: `write_memory` and `read_memory` fail exactly when the low two bits
of the address are not both zero; an aligned read of an address never
written fails with the missing-data error (it does not return zero); an
aligned read after a write to the same address returns exactly the stored
value. -/
theorem c7_memory_access (m : RiscMachine) (addr v : RiscInteger) :
    (addr.bits.take 2 = [false, false] →
      m.write_memory addr v = Except.ok
        { m with memory := fun k =>
            if k = (addr.to_int true) then some v else m.memory k } ∧
      (m.memory (addr.to_int true) = none →
        m.read_memory addr = Except.error "KeyError") ∧
      (∀ m2, m.write_memory addr v = Except.ok m2 →
        m2.read_memory addr = Except.ok v)) ∧
    (addr.bits.take 2 ≠ [false, false] →
      m.write_memory addr v = Except.error "Unaligned memory write" ∧
      m.read_memory addr = Except.error "Unaligned memory read") := by
  constructor
  · intro hal
    have hal2 : ¬ addr.bits.take 2 ≠ [false, false] := by simp [hal]
    refine ⟨by rw [RiscMachine.write_memory, if_neg hal2], ?_, ?_⟩
    · intro habs
      rw [RiscMachine.read_memory, if_neg hal2, habs]
    · intro m2 h
      rw [RiscMachine.write_memory, if_neg hal2] at h
      injection h with h2
      subst h2
      rw [RiscMachine.read_memory, if_neg hal2]
      simp
  · intro hal
    exact ⟨by rw [RiscMachine.write_memory, if_pos hal],
      by rw [RiscMachine.read_memory, if_pos hal]⟩

/-- Witness for C7: address 8 is aligned (write succeeds, a fresh read
fails with the missing-data error, read-after-write returns the value);
address 6 is misaligned (write fails). -/
theorem c7_memory_access_witness :
    (RiscMachine.init.write_memory (.ofInt 8) (.ofInt 5) =
      Except.ok
        { RiscMachine.init with memory := fun k =>
            if k = ((RiscInteger.ofInt 8).to_int true) then some (.ofInt 5)
            else RiscMachine.init.memory k }) ∧
    (RiscMachine.init.read_memory (.ofInt 8) = Except.error "KeyError") ∧
    (∀ m2, RiscMachine.init.write_memory (.ofInt 8) (.ofInt 5) = Except.ok m2 →
      m2.read_memory (.ofInt 8) = Except.ok (.ofInt 5)) ∧
    (RiscMachine.init.write_memory (.ofInt 6) (.ofInt 5) =
      Except.error "Unaligned memory write") :=
  ⟨((c7_memory_access RiscMachine.init (.ofInt 8) (.ofInt 5)).1 (by decide)).1,
   ((c7_memory_access RiscMachine.init (.ofInt 8) (.ofInt 5)).1 (by decide)).2.1 rfl,
   ((c7_memory_access RiscMachine.init (.ofInt 8) (.ofInt 5)).1 (by decide)).2.2,
   ((c7_memory_access RiscMachine.init (.ofInt 6) (.ofInt 5)).2 (by decide)).1⟩

/-! ### Claim C10: register tokens have no upper bound -/

/-- C10: `parse_register` accepts `x` followed by any digit string with no
upper-bound check — `x99` parses successfully to index 99 — and the
out-of-range index only fails later, when the machine is asked to read or
write register 99. -/
theorem c10_register_no_bound (m : RiscMachine) (v : RiscInteger)
    (h : 99 ∉ m.protected_registers) :
    parse_register "x99".data = Except.ok 99 ∧
    (∀ ds : List Char, ds ≠ [] → ds.all Char.isDigit →
      parse_register ('x' :: ds) = Except.ok (digitsVal ds)) ∧
    m.write_register 99 v = Except.error "Write to unknown register" ∧
    m.read_register 99 = Except.error "Read from unknown register" := by
  refine ⟨by decide, ?_, ?_, ?_⟩
  · intro ds h1 h2
    cases ds with
    | nil => exact absurd rfl h1
    | cons d ds2 => simp [parse_register, h2]
  · rw [RiscMachine.write_register, if_neg h, if_pos (by omega)]
  · rw [RiscMachine.read_register, if_pos (by omega)]

/-- Witness for C10 on a fresh machine. -/
theorem c10_register_no_bound_witness :
    parse_register "x99".data = Except.ok 99 ∧
    (∀ ds : List Char, ds ≠ [] → ds.all Char.isDigit →
      parse_register ('x' :: ds) = Except.ok (digitsVal ds)) ∧
    RiscMachine.init.write_register 99 (.ofInt 1) =
      Except.error "Write to unknown register" ∧
    RiscMachine.init.read_register 99 = Except.error "Read from unknown register" :=
  c10_register_no_bound RiscMachine.init (.ofInt 1) (by decide)

/-! ### Claim C1: encode/decode round-trips -/

theorem drop_app_big {c rest : List Bool} {n : Nat} (h : c.length ≤ n) :
    (c ++ rest).drop n = rest.drop (n - c.length) := by
  conv_lhs => rw [show n = c.length + (n - c.length) by omega]
  rw [List.drop_append]

theorem take_app_small {c rest : List Bool} {n : Nat} (h : n ≤ c.length) :
    (c ++ rest).take n = c.take n := List.take_append_of_le_length h

theorem natBits_slice (l : List Bool) (lo k : Nat) (h : lo + k ≤ l.length) :
    natBits (listToNat ((l.drop lo).take k)) k = (l.drop lo).take k := by
  have hlen : ((l.drop lo).take k).length = k := by simp; omega
  calc natBits (listToNat ((l.drop lo).take k)) k
      = natBits (listToNat ((l.drop lo).take k)) ((l.drop lo).take k).length := by
        rw [hlen]
    _ = (l.drop lo).take k := natBits_listToNat _

theorem natBits_take (l : List Bool) (k : Nat) (h : k ≤ l.length) :
    natBits (listToNat (l.take k)) k = l.take k := by
  have := natBits_slice l 0 k (by omega)
  simpa using this

theorem stitch (l : List Bool) (lo k : Nat) (rest : List Bool)
    (h : rest = l.drop (lo + k)) :
    (l.drop lo).take k ++ rest = l.drop lo := by
  rw [h, ← List.drop_drop]
  exact List.take_append_drop k (l.drop lo)

theorem recompose5 (l : List Bool) (a b c d e : Nat)
    (h : l.length ≤ a + b + c + d + e) :
    l.take a ++ (l.drop a).take b ++ (l.drop (a + b)).take c ++
      (l.drop (a + b + c)).take d ++ (l.drop (a + b + c + d)).take e = l := by
  simp only [List.append_assoc]
  rw [show (l.drop (a + b + c + d)).take e = l.drop (a + b + c + d) from
    List.take_of_length_le (by simp; omega)]
  rw [stitch l (a + b + c) d _ rfl, stitch l (a + b) c _ rfl, stitch l a b _ rfl]
  exact List.take_append_drop a l

theorem recompose6 (l : List Bool) (a b c d e f : Nat)
    (h : l.length ≤ a + b + c + d + e + f) :
    l.take a ++ (l.drop a).take b ++ (l.drop (a + b)).take c ++
      (l.drop (a + b + c)).take d ++ (l.drop (a + b + c + d)).take e ++
      (l.drop (a + b + c + d + e)).take f = l := by
  simp only [List.append_assoc]
  rw [show (l.drop (a + b + c + d + e)).take f = l.drop (a + b + c + d + e) from
    List.take_of_length_le (by simp; omega)]
  rw [stitch l (a + b + c + d) e _ rfl, stitch l (a + b + c) d _ rfl,
    stitch l (a + b) c _ rfl, stitch l a b _ rfl]
  exact List.take_append_drop a l

theorem recompose8 (l : List Bool) (a b c d e f g h : Nat)
    (hl : l.length ≤ a + b + c + d + e + f + g + h) :
    l.take a ++ (l.drop a).take b ++ (l.drop (a + b)).take c ++
      (l.drop (a + b + c)).take d ++ (l.drop (a + b + c + d)).take e ++
      (l.drop (a + b + c + d + e)).take f ++
      (l.drop (a + b + c + d + e + f)).take g ++
      (l.drop (a + b + c + d + e + f + g)).take h = l := by
  simp only [List.append_assoc]
  rw [show (l.drop (a + b + c + d + e + f + g)).take h =
      l.drop (a + b + c + d + e + f + g) from
    List.take_of_length_le (by simp; omega)]
  rw [stitch l (a + b + c + d + e + f) g _ rfl,
    stitch l (a + b + c + d + e) f _ rfl, stitch l (a + b + c + d) e _ rfl,
    stitch l (a + b + c) d _ rfl, stitch l (a + b) c _ rfl, stitch l a b _ rfl]
  exact List.take_append_drop a l

theorem pyRep_singleton (n : Nat) (b : Bool) :
    pyRep [b] n = List.replicate n b := by
  induction n with
  | zero => rfl
  | succ k ih =>
    rw [pyRep, List.replicate_succ, List.flatten_cons, ← pyRep, ih,
      List.singleton_append, ← List.replicate_succ]

theorem drop_take_one (l : List Bool) (k : Nat) (h : k < l.length) :
    (l.drop k).take 1 = [l.getD k false] := by
  have hget : (l.drop k).getD 0 false = l.getD k false := by
    rw [List.getD_eq_getElem?_getD, List.getD_eq_getElem?_getD, List.getElem?_drop]
    simp
  cases hd : l.drop k with
  | nil =>
    have hlen : 0 < (l.drop k).length := by simp; omega
    rw [hd] at hlen
    simp at hlen
  | cons a t =>
    rw [hd] at hget
    simp only [List.getD_cons_zero] at hget
    simp [hget]

theorem drop_eq_replicate_of_const (l : List Bool) (k : Nat) (b : Bool)
    (hlen : l.length = 32) (hk : k ≤ 32)
    (hconst : ∀ i, k ≤ i → i < 32 → l.getD i false = b) :
    l.drop k = List.replicate (32 - k) b := by
  apply List.ext_getElem
  · simp [hlen]
  · intro i h1 h2
    rw [List.getElem_replicate, List.getElem_drop]
    have hik : k + i < 32 := by simp [hlen] at h1; omega
    rw [← List.getD_eq_getElem l false (by omega)]
    exact hconst (k + i) (by omega) hik

theorem signext_recompose (n : RiscInteger) (h : signExt12 n) :
    n.bits.take 12 ++ List.replicate 20 (n.bits.getD 11 false) = n.bits := by
  obtain ⟨hw, hc⟩ := h
  have hlen : n.bits.length = 32 := hw
  have hdrop : n.bits.drop 12 = List.replicate 20 (n.bits.getD 11 false) := by
    have := drop_eq_replicate_of_const n.bits 12 (n.bits.getD 11 false) hlen
      (by omega) (fun i h1 h2 => hc i h2 (by omega))
    simpa using this
  rw [← hdrop]
  exact List.take_append_drop 12 n.bits

theorem decodeR_encodeR (OPC F3 F7 : Nat) (i : RTypeInstr) (hv : validR i)
    (hO : OPC < 128) (hF3 : F3 < 8) (hF7 : F7 < 128) :
    decodeR OPC F3 F7 (encodeR OPC F3 F7 i) = Except.ok i := by
  obtain ⟨h1, h2, h3⟩ := hv
  obtain ⟨rd, rs1, rs2⟩ := i
  simp [decodeR, encodeR, sliceVal, drop_app_big, take_app_small,
    natBits_length, List.take_of_length_le, listToNat_natBits]
  rw [if_neg (by omega), if_neg (by omega), if_neg (by omega),
    Nat.mod_eq_of_lt h1, Nat.mod_eq_of_lt h2, Nat.mod_eq_of_lt h3]

theorem encodeR_decodeR (OPC F3 F7 : Nat) (code : RiscInteger) (hw : code.wf)
    (hO : sliceVal code 0 7 = OPC) (hF3 : sliceVal code 12 15 = F3)
    (hF7 : sliceVal code 25 32 = F7) :
    (decodeR OPC F3 F7 code).map (encodeR OPC F3 F7) = Except.ok code := by
  obtain ⟨bits⟩ := code
  have hlen : bits.length = 32 := hw
  simp only [sliceVal, List.drop_zero] at hO hF3 hF7
  norm_num at hO hF3 hF7
  rw [decodeR]
  simp only [sliceVal, List.drop_zero]
  norm_num
  rw [hO, hF3, hF7, if_pos rfl, if_pos rfl, if_pos rfl]
  simp only [Except.map]
  rw [encodeR]
  simp only [RiscInteger.mk.injEq]
  rw [← hO, ← hF3, ← hF7,
    natBits_take bits 7 (by omega),
    natBits_slice bits 7 5 (by omega), natBits_slice bits 12 3 (by omega),
    natBits_slice bits 15 5 (by omega), natBits_slice bits 20 5 (by omega),
    natBits_slice bits 25 7 (by omega)]
  refine congrArg Except.ok (congrArg RiscInteger.mk ?_)
  exact recompose6 bits 7 5 3 5 5 7 (by omega)

theorem signext_drop12 (n : RiscInteger) (h : signExt12 n) :
    n.bits.drop 12 = List.replicate 20 (n.bits.getD 11 false) := by
  obtain ⟨hw, hc⟩ := h
  have hlen : n.bits.length = 32 := hw
  have := drop_eq_replicate_of_const n.bits 12 (n.bits.getD 11 false) hlen
    (by omega) (fun i h1 h2 => hc i h2 (by omega))
  simpa using this

theorem decodeI_encodeI (OPC F3 : Nat) (i : ITypeInstr) (hv : validI i)
    (hO : OPC < 128) (hF3 : F3 < 8) :
    decodeI OPC F3 (encodeI OPC F3 i) = Except.ok i := by
  obtain ⟨rd, rs1, n⟩ := i
  obtain ⟨h1, h2, hn⟩ := hv
  have hw : n.bits.length = 32 := hn.1
  simp [decodeI, encodeI, sliceVal, drop_app_big, take_app_small, natBits_length,
    List.take_of_length_le, listToNat_natBits, hw, List.drop_take, List.take_take,
    List.length_take, List.length_drop]
  rw [if_neg (by omega), if_neg (by omega),
    Nat.mod_eq_of_lt h1, Nat.mod_eq_of_lt h2]
  rw [drop_take_one n.bits 11 (by omega), pyRep_singleton]
  rw [signext_recompose n hn]

theorem encodeI_decodeI (OPC F3 : Nat) (code : RiscInteger) (hw : code.wf)
    (hO : sliceVal code 0 7 = OPC) (hF3 : sliceVal code 12 15 = F3) :
    (decodeI OPC F3 code).map (encodeI OPC F3) = Except.ok code := by
  obtain ⟨bits⟩ := code
  have hlen : bits.length = 32 := hw
  simp only [sliceVal, List.drop_zero] at hO hF3
  norm_num at hO hF3
  rw [decodeI]
  simp only [sliceVal, List.drop_zero]
  norm_num
  rw [hO, hF3, if_pos rfl, if_pos rfl]
  simp only [Except.map]
  rw [encodeI]
  refine congrArg Except.ok (congrArg RiscInteger.mk ?_)
  rw [show (RiscInteger.mk (bits.drop 20 ++ pyRep ((bits.drop 31).take 1) 20)).bits
      = bits.drop 20 ++ pyRep ((bits.drop 31).take 1) 20 from rfl]
  rw [take_app_small (by simp [hlen])]
  rw [← hO, ← hF3, natBits_take bits 7 (by omega), natBits_slice bits 7 5 (by omega),
    natBits_slice bits 12 3 (by omega), natBits_slice bits 15 5 (by omega)]
  exact recompose5 bits 7 5 3 5 12 (by omega)

theorem decodeS_encodeS (OPC F3 : Nat) (i : STypeInstr) (hv : validS i)
    (hO : OPC < 128) (hF3 : F3 < 8) :
    decodeS OPC F3 (encodeS OPC F3 i) = Except.ok i := by
  obtain ⟨rs1, rs2, n⟩ := i
  obtain ⟨h1, h2, hn⟩ := hv
  have hw : n.bits.length = 32 := hn.1
  simp [decodeS, encodeS, sliceVal, drop_app_big, take_app_small, natBits_length,
    List.take_of_length_le, listToNat_natBits, hw, List.drop_take, List.take_take,
    List.drop_drop, List.length_take, List.length_drop]
  rw [if_neg (by omega), if_neg (by omega),
    Nat.mod_eq_of_lt h1, Nat.mod_eq_of_lt h2]
  rw [drop_take_one n.bits 11 (by omega), pyRep_singleton]
  rw [← signext_drop12 n hn]
  rw [stitch n.bits 5 7 (n.bits.drop 12) rfl]
  rw [List.take_append_drop]

theorem encodeS_decodeS (OPC F3 : Nat) (code : RiscInteger) (hw : code.wf)
    (hO : sliceVal code 0 7 = OPC) (hF3 : sliceVal code 12 15 = F3) :
    (decodeS OPC F3 code).map (encodeS OPC F3) = Except.ok code := by
  obtain ⟨bits⟩ := code
  have hlen : bits.length = 32 := hw
  simp only [sliceVal, List.drop_zero] at hO hF3
  norm_num at hO hF3
  rw [decodeS]
  simp only [sliceVal, List.drop_zero]
  norm_num
  rw [hO, hF3, if_pos rfl, if_pos rfl]
  simp only [Except.map]
  rw [encodeS]
  refine congrArg Except.ok (congrArg RiscInteger.mk ?_)
  dsimp only
  rw [show ((bits.drop 7).take 5 ++ (bits.drop 25 ++
        pyRep ((bits.drop 31).take 1) 20)).take 5 = (bits.drop 7).take 5 from by
    rw [take_app_small (by simp [hlen])]
    exact List.take_of_length_le (by simp [hlen])]
  rw [show (((bits.drop 7).take 5 ++ (bits.drop 25 ++
        pyRep ((bits.drop 31).take 1) 20)).drop 5).take 7 = (bits.drop 25).take 7 from by
    rw [drop_app_big (by simp [hlen])]
    norm_num [List.length_take, List.length_drop, hlen]]
  rw [← hO, ← hF3, natBits_take bits 7 (by omega), natBits_slice bits 12 3 (by omega),
    natBits_slice bits 15 5 (by omega), natBits_slice bits 20 5 (by omega)]
  exact recompose6 bits 7 5 3 5 5 7 (by omega)

theorem take_one_getD (l : List Bool) (h : 0 < l.length) :
    l.take 1 = [l.getD 0 false] := by
  have := drop_take_one l 0 (by omega)
  simpa using this

theorem cons_head_drop (l : List Bool) (h : 0 < l.length) :
    l.getD 0 false :: l.drop 1 = l := by
  cases l with
  | nil => simp at h
  | cons a t => simp

theorem decodeSB_encodeSB (OPC F3 : Nat) (i : SBTypeInstr) (hv : validSB i)
    (hO : OPC < 128) (hF3 : F3 < 8) :
    decodeSB OPC F3 (encodeSB OPC F3 i) = Except.ok i := by
  obtain ⟨rs1, rs2, o⟩ := i
  obtain ⟨h1, h2, hwo, h0, hc⟩ := hv
  have hw : o.bits.length = 32 := hwo
  have hdrop12 : o.bits.drop 12 = List.replicate 20 (o.bits.getD 12 false) := by
    have := drop_eq_replicate_of_const o.bits 12 (o.bits.getD 12 false) hw
      (by omega) (fun i h1 h2 => hc i h2 h1)
    simpa using this
  simp [decodeSB, encodeSB, sliceVal, drop_app_big, take_app_small, natBits_length,
    List.take_of_length_le, listToNat_natBits, hw, List.drop_take, List.take_take,
    List.drop_drop, List.length_take, List.length_drop]
  rw [if_neg (by omega), if_neg (by omega),
    Nat.mod_eq_of_lt h1, Nat.mod_eq_of_lt h2]
  rw [drop_take_one o.bits 12 (by omega), pyRep_singleton]
  rw [← hdrop12]
  rw [stitch o.bits 11 1 (o.bits.drop 12) rfl,
    stitch o.bits 5 6 (o.bits.drop 11) rfl]
  rw [← List.drop_one]
  rw [stitch o.bits 1 4 (o.bits.drop 5) rfl]
  rw [show (false : Bool) = o.bits.getD 0 false from h0.symm,
    cons_head_drop o.bits (by omega)]

theorem encodeSB_decodeSB (OPC F3 : Nat) (code : RiscInteger) (hw : code.wf)
    (hO : sliceVal code 0 7 = OPC) (hF3 : sliceVal code 12 15 = F3) :
    (decodeSB OPC F3 code).map (encodeSB OPC F3) = Except.ok code := by
  obtain ⟨bits⟩ := code
  have hlen : bits.length = 32 := hw
  simp only [sliceVal, List.drop_zero] at hO hF3
  norm_num at hO hF3
  rw [decodeSB]
  simp only [sliceVal, List.drop_zero]
  norm_num
  rw [hO, hF3, if_pos rfl, if_pos rfl]
  simp only [Except.map]
  rw [encodeSB]
  refine congrArg Except.ok (congrArg RiscInteger.mk ?_)
  dsimp only
  rw [drop_take_one bits 31 (by omega), pyRep_singleton]
  simp [drop_app_big, take_app_small, List.take_of_length_le, List.length_take,
    List.length_drop, hlen, List.take_take, List.drop_drop, List.take_replicate]
  rw [← hO, ← hF3, natBits_take bits 7 (by omega), natBits_slice bits 12 3 (by omega),
    natBits_slice bits 15 5 (by omega), natBits_slice bits 20 5 (by omega)]
  have hlt31 : 31 < bits.length := by omega
  have h31 : [bits[31]] = (bits.drop 31).take 1 := by
    rw [drop_take_one bits 31 hlt31, List.getD_eq_getElem bits false hlt31]
  rw [h31]
  simp only [← List.append_assoc]
  exact recompose8 bits 7 1 4 3 5 5 6 1 (by omega)

/-- C1: for every validly-constructed instruction of the seven covered
opcodes, decoding the word produced by `encode` yields the instruction back
field-for-field; and for any word whose opcode/funct3 (and funct7 for
R-type) fields match a known format, encoding the decoded instruction
reproduces the identical word.  The opcode/funct constants per mnemonic are
`add` R-type (0b0110011, 0b000, 0b0000000), `addi` I-type (0b0010011,
0b000), `lw` I-type (0b0000011, 0b010), `sw` S-type (0b0100011, 0b010) and
`beq`/`bge`/`blt` SB-type (0b1100011 with funct3 0b000/0b101/0b100). -/
theorem c1_encode_decode_roundtrip :
    (∀ i : RTypeInstr, validR i →
      decodeR 0b0110011 0b000 0b0000000 (encodeR 0b0110011 0b000 0b0000000 i) =
        Except.ok i) ∧
    (∀ w : RiscInteger, w.wf → sliceVal w 0 7 = 0b0110011 →
      sliceVal w 12 15 = 0b000 → sliceVal w 25 32 = 0b0000000 →
      (decodeR 0b0110011 0b000 0b0000000 w).map (encodeR 0b0110011 0b000 0b0000000) =
        Except.ok w) ∧
    (∀ i : ITypeInstr, validI i →
      decodeI 0b0010011 0b000 (encodeI 0b0010011 0b000 i) = Except.ok i) ∧
    (∀ w : RiscInteger, w.wf → sliceVal w 0 7 = 0b0010011 →
      sliceVal w 12 15 = 0b000 →
      (decodeI 0b0010011 0b000 w).map (encodeI 0b0010011 0b000) = Except.ok w) ∧
    (∀ i : ITypeInstr, validI i →
      decodeI 0b0000011 0b010 (encodeI 0b0000011 0b010 i) = Except.ok i) ∧
    (∀ w : RiscInteger, w.wf → sliceVal w 0 7 = 0b0000011 →
      sliceVal w 12 15 = 0b010 →
      (decodeI 0b0000011 0b010 w).map (encodeI 0b0000011 0b010) = Except.ok w) ∧
    (∀ i : STypeInstr, validS i →
      decodeS 0b0100011 0b010 (encodeS 0b0100011 0b010 i) = Except.ok i) ∧
    (∀ w : RiscInteger, w.wf → sliceVal w 0 7 = 0b0100011 →
      sliceVal w 12 15 = 0b010 →
      (decodeS 0b0100011 0b010 w).map (encodeS 0b0100011 0b010) = Except.ok w) ∧
    (∀ i : SBTypeInstr, validSB i →
      decodeSB 0b1100011 0b000 (encodeSB 0b1100011 0b000 i) = Except.ok i) ∧
    (∀ w : RiscInteger, w.wf → sliceVal w 0 7 = 0b1100011 →
      sliceVal w 12 15 = 0b000 →
      (decodeSB 0b1100011 0b000 w).map (encodeSB 0b1100011 0b000) = Except.ok w) ∧
    (∀ i : SBTypeInstr, validSB i →
      decodeSB 0b1100011 0b101 (encodeSB 0b1100011 0b101 i) = Except.ok i) ∧
    (∀ w : RiscInteger, w.wf → sliceVal w 0 7 = 0b1100011 →
      sliceVal w 12 15 = 0b101 →
      (decodeSB 0b1100011 0b101 w).map (encodeSB 0b1100011 0b101) = Except.ok w) ∧
    (∀ i : SBTypeInstr, validSB i →
      decodeSB 0b1100011 0b100 (encodeSB 0b1100011 0b100 i) = Except.ok i) ∧
    (∀ w : RiscInteger, w.wf → sliceVal w 0 7 = 0b1100011 →
      sliceVal w 12 15 = 0b100 →
      (decodeSB 0b1100011 0b100 w).map (encodeSB 0b1100011 0b100) = Except.ok w) :=
  ⟨fun i hv => decodeR_encodeR _ _ _ i hv (by norm_num) (by norm_num) (by norm_num),
   fun w hw h1 h2 h3 => encodeR_decodeR _ _ _ w hw h1 h2 h3,
   fun i hv => decodeI_encodeI _ _ i hv (by norm_num) (by norm_num),
   fun w hw h1 h2 => encodeI_decodeI _ _ w hw h1 h2,
   fun i hv => decodeI_encodeI _ _ i hv (by norm_num) (by norm_num),
   fun w hw h1 h2 => encodeI_decodeI _ _ w hw h1 h2,
   fun i hv => decodeS_encodeS _ _ i hv (by norm_num) (by norm_num),
   fun w hw h1 h2 => encodeS_decodeS _ _ w hw h1 h2,
   fun i hv => decodeSB_encodeSB _ _ i hv (by norm_num) (by norm_num),
   fun w hw h1 h2 => encodeSB_decodeSB _ _ w hw h1 h2,
   fun i hv => decodeSB_encodeSB _ _ i hv (by norm_num) (by norm_num),
   fun w hw h1 h2 => encodeSB_decodeSB _ _ w hw h1 h2,
   fun i hv => decodeSB_encodeSB _ _ i hv (by norm_num) (by norm_num),
   fun w hw h1 h2 => encodeSB_decodeSB _ _ w hw h1 h2⟩

/-- Witness for C1 at the binary test vectors of the repository's own test
suite, one per direction and opcode. -/
theorem c1_encode_decode_roundtrip_witness :
    (decodeR 0b0110011 0b000 0b0000000
        (encodeR 0b0110011 0b000 0b0000000 ⟨7, 10, 27⟩) = Except.ok ⟨7, 10, 27⟩) ∧
    ((decodeR 0b0110011 0b000 0b0000000 (.ofInt 0b1101101010000001110110011)).map
        (encodeR 0b0110011 0b000 0b0000000) =
      Except.ok (.ofInt 0b1101101010000001110110011)) ∧
    (decodeI 0b0010011 0b000 (encodeI 0b0010011 0b000 ⟨8, 17, .ofInt 1755⟩) =
      Except.ok ⟨8, 17, .ofInt 1755⟩) ∧
    ((decodeI 0b0010011 0b000 (.ofInt 0b01101101101110001000010000010011)).map
        (encodeI 0b0010011 0b000) =
      Except.ok (.ofInt 0b01101101101110001000010000010011)) ∧
    (decodeI 0b0000011 0b010 (encodeI 0b0000011 0b010 ⟨14, 22, .ofInt (-586)⟩) =
      Except.ok ⟨14, 22, .ofInt (-586)⟩) ∧
    ((decodeI 0b0000011 0b010
          (.mk (natBits 0b11011011011010110010011100000011 32))).map
        (encodeI 0b0000011 0b010) =
      Except.ok (.mk (natBits 0b11011011011010110010011100000011 32))) ∧
    (decodeS 0b0100011 0b010 (encodeS 0b0100011 0b010 ⟨29, 19, .ofInt 1365⟩) =
      Except.ok ⟨29, 19, .ofInt 1365⟩) ∧
    ((decodeS 0b0100011 0b010 (.ofInt 0b01010101001111101010101010100011)).map
        (encodeS 0b0100011 0b010) =
      Except.ok (.ofInt 0b01010101001111101010101010100011)) ∧
    (decodeSB 0b1100011 0b000 (encodeSB 0b1100011 0b000 ⟨11, 23, .ofInt (-2928)⟩) =
      Except.ok ⟨11, 23, .ofInt (-2928)⟩) ∧
    ((decodeSB 0b1100011 0b000 (encodeSB 0b1100011 0b000 ⟨11, 23, .ofInt (-2928)⟩)).map
        (encodeSB 0b1100011 0b000) =
      Except.ok (encodeSB 0b1100011 0b000 ⟨11, 23, .ofInt (-2928)⟩)) ∧
    (decodeSB 0b1100011 0b101 (encodeSB 0b1100011 0b101 ⟨11, 23, .ofInt (-2928)⟩) =
      Except.ok ⟨11, 23, .ofInt (-2928)⟩) ∧
    ((decodeSB 0b1100011 0b101 (encodeSB 0b1100011 0b101 ⟨11, 23, .ofInt (-2928)⟩)).map
        (encodeSB 0b1100011 0b101) =
      Except.ok (encodeSB 0b1100011 0b101 ⟨11, 23, .ofInt (-2928)⟩)) ∧
    (decodeSB 0b1100011 0b100 (encodeSB 0b1100011 0b100 ⟨11, 23, .ofInt (-2928)⟩) =
      Except.ok ⟨11, 23, .ofInt (-2928)⟩) ∧
    ((decodeSB 0b1100011 0b100
          (.mk (natBits 0b11001001011101011100100001100011 32))).map
        (encodeSB 0b1100011 0b100) =
      Except.ok (.mk (natBits 0b11001001011101011100100001100011 32))) :=
  ⟨c1_encode_decode_roundtrip.1 ⟨7, 10, 27⟩ (by decide),
   c1_encode_decode_roundtrip.2.1 _ (by decide) (by decide) (by decide) (by decide),
   c1_encode_decode_roundtrip.2.2.1 ⟨8, 17, .ofInt 1755⟩ (by decide),
   c1_encode_decode_roundtrip.2.2.2.1 _ (by decide) (by decide) (by decide),
   c1_encode_decode_roundtrip.2.2.2.2.1 ⟨14, 22, .ofInt (-586)⟩ (by decide),
   c1_encode_decode_roundtrip.2.2.2.2.2.1 _ (by decide) (by decide) (by decide),
   c1_encode_decode_roundtrip.2.2.2.2.2.2.1 ⟨29, 19, .ofInt 1365⟩ (by decide),
   c1_encode_decode_roundtrip.2.2.2.2.2.2.2.1 _ (by decide) (by decide) (by decide),
   c1_encode_decode_roundtrip.2.2.2.2.2.2.2.2.1 ⟨11, 23, .ofInt (-2928)⟩ (by decide),
   c1_encode_decode_roundtrip.2.2.2.2.2.2.2.2.2.1 _ (by decide) (by decide) (by decide),
   c1_encode_decode_roundtrip.2.2.2.2.2.2.2.2.2.2.1 ⟨11, 23, .ofInt (-2928)⟩ (by decide),
   c1_encode_decode_roundtrip.2.2.2.2.2.2.2.2.2.2.2.1 _ (by decide) (by decide) (by decide),
   c1_encode_decode_roundtrip.2.2.2.2.2.2.2.2.2.2.2.2.1 ⟨11, 23, .ofInt (-2928)⟩ (by decide),
   c1_encode_decode_roundtrip.2.2.2.2.2.2.2.2.2.2.2.2.2 _ (by decide) (by decide) (by decide)⟩

end Riscv
